import Mathlib

/-!
The FreeBSD/x86 back end of ltrace (`sysdeps/freebsd/x86/trace.c`).

A shallow embedding of the thread-context switch (`switch_thread`), the
per-stop probe (`get_arch_dep`) and the stop classifier (`syscall_p`).

Memory model.  A `struct process *` and a `struct threadinfo *` are natural
numbers (addresses); the objects they point to live in the two maps
`State.procs` and `State.heap`.  A possibly-NULL thread pointer is an
`Option Nat`.  `malloc` hands out the address `State.brk` and advances it, so
a fresh object never aliases a live one.  A call-stack buffer is the map from
an index to the element stored there.  Values that the C code receives from
the kernel or from the allocator (the results of the two `ptrace` requests,
what each of the two `malloc` calls returns and what the fresh buffer holds)
are arguments of the embedded functions.
-/

namespace Ltrace

/-- Constants and macros that `trace.c` takes from system headers and from
the build: the `x86_64` build flag of lines 40-44, `EM_X86_64`, `SIGTRAP`,
`ESRCH`, the two `PL_FLAG_*` bits and the `wait(2)` status macros. -/
structure Env where
  x86_64 : Bool
  EM_X86_64 : Nat
  SIGTRAP : Int
  ESRCH : Int
  PL_FLAG_SCE : Nat
  PL_FLAG_SCX : Nat
  WIFSTOPPED : Int → Bool
  WSTOPSIG : Int → Int

/-- The values of FreeBSD on amd64: `WIFSTOPPED(x)` is `(x & 0177) == 0177`
and `WSTOPSIG(x)` is `x >> 8`. -/
def freebsd_amd64 : Env where
  x86_64 := true
  EM_X86_64 := 62
  SIGTRAP := 5
  ESRCH := 3
  PL_FLAG_SCE := 4
  PL_FLAG_SCX := 8
  WIFSTOPPED := fun x => decide (x % 128 = 127)
  WSTOPSIG := fun x => x / 256

/-- The values of FreeBSD on i386 (a 32-bit tracer). -/
def freebsd_i386 : Env :=
  { freebsd_amd64 with x86_64 := false }

/-- An entry of a call stack (`struct callstack_element`): the `syscall`
member of the union `c_un` and the `is_syscall` discriminant. -/
structure callstack_element where
  c_un_syscall : Int
  is_syscall : Int
deriving DecidableEq, Repr

/-- The register snapshot (`struct reg`): its return-value register, named
`r_rax` in an x86_64 build and `r_eax` otherwise. -/
structure reg where
  r_rax : Int
  r_eax : Int
deriving DecidableEq, Repr

/-- The fields of `struct ptrace_lwpinfo` that `trace.c` reads. -/
structure ptrace_lwpinfo where
  pl_lwpid : Int
  pl_flags : Nat
deriving DecidableEq, Repr

/-- A thread context (`struct threadinfo`).  The pointer field `callstack` is
rendered by two fields: `callstack_null` says that the pointer is NULL, and
`callstack` is the content of the buffer it points to otherwise. -/
structure threadinfo where
  tid : Int
  onstep : Int
  proc : Nat
  saved : Int
  callstack_depth : Nat
  callstack : Nat → callstack_element
  callstack_null : Bool
  event_handler : Option Nat
  regs : reg
  valid_regs : Int

/-- The fields of `struct process` that `trace.c` touches; `threads` is the
singly-linked list `os.threads` (head first) and `lwpinfo` is `os.lwpinfo`. -/
structure process where
  pid : Int
  e_machine : Nat
  mask_32bit : Int
  personality : Int
  callstack_depth : Nat
  callstack : Nat → callstack_element
  event_handler : Option Nat
  threads : List Nat
  lwpinfo : ptrace_lwpinfo

/-- The tracer's memory: the global `curthread`, the processes, the thread
contexts and the next address `malloc` returns. -/
structure State where
  curthread : Option Nat
  procs : Nat → process
  heap : Nat → threadinfo
  brk : Nat

/-- What the two `malloc` calls of the new-thread path return.  `none`: the
call of line 81 returns NULL.  `some none`: that call succeeds and the call of
line 91, whose result the code does not test, returns NULL.
`some (some buf)`: both succeed and the fresh buffer holds `buf`. -/
abbrev malloc_result := Option (Option (Nat → callstack_element))

/-- Store `t` at thread address `a`. -/
def setThread (s : State) (a : Nat) (t : threadinfo) : State :=
  { s with heap := fun b => if b = a then t else s.heap b }

/-- Store `x` at process address `p`. -/
def setProc (s : State) (p : Nat) (x : process) : State :=
  { s with procs := fun q => if q = p then x else s.procs q }

/-- The call `memcpy(dst, src, sizeof(struct callstack_element) * n)`: the
first `n` elements of `dst` become those of `src`. -/
def memcpy (dst src : Nat → callstack_element) (n : Nat) : Nat → callstack_element :=
  fun i => if i < n then src i else dst i

/-- Lines 58-62, "Save current context": the transient call stack, depth and
event handler of `proc` are copied into the context `c`, which is marked
saved.  (The copy goes through the pointer `callstack` of `c`; the C call
faults when that pointer is NULL and the depth is positive.  No context of a
`Reachable` memory has a NULL pointer.) -/
def save_context (s : State) (c proc : Nat) : State :=
  setThread s c
    { s.heap c with
      callstack_depth := (s.procs proc).callstack_depth
      callstack := memcpy (s.heap c).callstack (s.procs proc).callstack
        (s.procs proc).callstack_depth
      event_handler := (s.procs proc).event_handler
      saved := 1 }

/-- Lines 72-75, "Load saved context": the context `td` is copied into the
transient fields of `proc` (through the pointer `callstack` of `td`, as in
`save_context`). -/
def load_context (s : State) (td proc : Nat) : State :=
  setProc s proc
    { s.procs proc with
      callstack_depth := (s.heap td).callstack_depth
      callstack := memcpy (s.procs proc).callstack (s.heap td).callstack
        (s.heap td).callstack_depth
      event_handler := (s.heap td).event_handler }

/-- Lines 86-93, "New thread": the context allocated at `s.brk` is filled in
and put at the head of the list of `proc`.  `regs` and `valid_regs` keep what
the fresh memory held.  `buf` is what the `malloc` of line 91 returns: the
content of the fresh buffer, or `none` for NULL, which line 91 stores in
`callstack` like any other pointer. -/
def new_thread (s : State) (proc : Nat) (tid : Int)
    (buf : Option (Nat → callstack_element)) : State :=
  { curthread := s.curthread
    procs := fun q =>
      if q = proc then { s.procs proc with threads := s.brk :: (s.procs proc).threads }
      else s.procs q
    heap := fun b =>
      if b = s.brk then
        { s.heap s.brk with
          tid := tid
          onstep := 0
          proc := proc
          saved := 0
          callstack_depth := 0
          callstack := buf.getD (s.heap s.brk).callstack
          callstack_null := buf.isNone
          event_handler := none }
      else s.heap b
    brk := s.brk + 1 }

/-- Lines 51 and 55-63 once the thread is known not to be the current one:
the current context is saved when it belongs to `proc`. -/
def switch_save (s : State) (proc : Nat) : State :=
  match s.curthread with
  | some c => if (s.heap c).proc = proc then save_context s c proc else s
  | none => s

/-- Lines 64-94: the search of `os.threads` for `tid` (the first match ends
the loop), then the creation of a context.  Only the `malloc` of line 81 is
tested (line 82): when it returns NULL (`alloc = none`) the function returns
`curthread`; otherwise the context is created with whatever the `malloc` of
line 91 returned. -/
def switch_find (s : State) (proc : Nat) (tid : Int)
    (alloc : malloc_result) : State × Option Nat :=
  match (s.procs proc).threads.find? (fun td => decide ((s.heap td).tid = tid)) with
  | some td =>
    if (s.heap td).saved = 0 then (s, some td)
    else (load_context s td proc, some td)
  | none =>
    match alloc with
    | none => (s, s.curthread)
    | some buf => (new_thread s proc tid buf, some s.brk)

/-- The function `switch_thread` (lines 46-95): the memory after the call and
the returned pointer. -/
def switch_thread (s : State) (proc : Nat) (tid : Int)
    (alloc : malloc_result) : State × Option Nat :=
  match s.curthread with
  | some c =>
    if (s.heap c).proc = proc ∧ (s.heap c).tid = tid then (s, some c)
    else switch_find (switch_save s proc) proc tid alloc
  | none => switch_find (switch_save s proc) proc tid alloc

/-- The statement `curthread = switch_thread(proc, tid)` (line 106). -/
def activate (s : State) (proc : Nat) (tid : Int)
    (alloc : malloc_result) : State :=
  { (switch_thread s proc tid alloc).1 with curthread := (switch_thread s proc tid alloc).2 }

/-- Outcome of `ptrace(PT_LWPINFO, ...)`: the structure the kernel filled in,
or `-1` with an `errno`. -/
inductive lwpinfo_result where
  | ok (info : ptrace_lwpinfo)
  | error (errno : Int)

/-- Lines 113-122: the mode fields computed from `e_machine`. -/
def set_mode (K : Env) (x : process) : process :=
  if x.e_machine = K.EM_X86_64 then { x with mask_32bit := 0, personality := 0 }
  else if K.x86_64 then { x with mask_32bit := 1, personality := 0 }
  else { x with mask_32bit := 0, personality := 0 }

/-- Line 107-108: the result of `ptrace(PT_GETREGS, ...)` is recorded in the
context `c`; `getregs` is `none` when the request fails. -/
def fetch_regs (s : State) (c : Nat) (getregs : Option reg) : State :=
  match getregs with
  | some g => setThread s c { s.heap c with regs := g, valid_regs := 1 }
  | none => setThread s c { s.heap c with valid_regs := 0 }

/-- The function `get_arch_dep` (lines 97-123).  The result is `none` when the
code dereferences a NULL `curthread` on line 107. -/
def get_arch_dep (K : Env) (s : State) (proc : Nat) (lwp : lwpinfo_result)
    (alloc : malloc_result) (getregs : Option reg) : Option State :=
  match lwp with
  | .error _ => some s
  | .ok info =>
    let s1 := setProc s proc { s.procs proc with lwpinfo := info }
    let s2 := activate s1 proc info.pl_lwpid alloc
    match s2.curthread with
    | none => none
    | some c =>
      let s3 := fetch_regs s2 c getregs
      some (setProc s3 proc (set_mode K (s3.procs proc)))

/-- Conversion of a register value to the C type `int`. -/
def toCInt (v : Int) : Int :=
  (v + 2147483648) % 4294967296 - 2147483648

/-- Lines 136-140: the register read at a syscall entry, `r_rax` in an x86_64
build and `r_eax` otherwise. -/
def return_register (K : Env) (r : reg) : Int :=
  if K.x86_64 then r.r_rax else r.r_eax

/-- What a call of `syscall_p` leaves behind: the returned value and the value
written to `*sysnum`, `none` when nothing is written. -/
structure syscall_result where
  ret : Int
  sysnum : Option Int
deriving DecidableEq, Repr

/-- The function `syscall_p` (lines 127-156).  The result is `none` when the
code dereferences a NULL `curthread` on line 137/139. -/
def syscall_p (K : Env) (s : State) (proc : Nat) (status : Int) :
    Option syscall_result :=
  if K.WIFSTOPPED status = true ∧ K.WSTOPSIG status = K.SIGTRAP then
    let p := s.procs proc
    let elem : Option callstack_element :=
      if p.callstack_depth > 0 then some (p.callstack (p.callstack_depth - 1)) else none
    if p.lwpinfo.pl_flags &&& K.PL_FLAG_SCE ≠ 0 then
      match s.curthread with
      | none => none
      | some c =>
        some ⟨1, some (toCInt (return_register K (s.heap c).regs))⟩
    else if p.lwpinfo.pl_flags &&& K.PL_FLAG_SCX ≠ 0 then
      match elem with
      | some e => if e.is_syscall ≠ 0 then some ⟨2, some e.c_un_syscall⟩
                  else some ⟨2, some (-1)⟩
      | none => some ⟨2, some (-1)⟩
    else some ⟨0, none⟩
  else some ⟨0, none⟩

/-- A change the rest of the tracer makes between two stops: the transient
call stack, depth and event handler of process `p` are overwritten. -/
def set_callstack (s : State) (p : Nat) (depth : Nat) (cs : Nat → callstack_element)
    (eh : Option Nat) : State :=
  setProc s p { s.procs p with callstack_depth := depth, callstack := cs, event_handler := eh }

/-- The states the tracer can be in: it starts with `curthread` NULL and every
thread list empty; then `switch_thread` and `get_arch_dep` are called (with
`curthread` set to each result) and call stacks are edited between the calls.
In every call the `malloc` of line 81 may succeed or fail; the `malloc` of
line 91 succeeds, so that every context has a call-stack buffer. -/
inductive Reachable (K : Env) : State → Prop where
  | init (s : State) : s.curthread = none → (∀ p, (s.procs p).threads = []) →
      Reachable K s
  | switch (s : State) (p : Nat) (tid : Int) (alloc : malloc_result) :
      alloc ≠ some none → Reachable K s → Reachable K (activate s p tid alloc)
  | probe (s s' : State) (p : Nat) (lwp : lwpinfo_result)
      (alloc : malloc_result) (getregs : Option reg) :
      alloc ≠ some none → Reachable K s →
      get_arch_dep K s p lwp alloc getregs = some s' → Reachable K s'
  | edit (s : State) (p depth : Nat) (cs : Nat → callstack_element) (eh : Option Nat) :
      Reachable K s → Reachable K (set_callstack s p depth cs eh)

/-- Two memories with the same allocation mark, the same thread lists and the
same `tid` and `proc` in every context. -/
structure SameShape (s s' : State) : Prop where
  brk : s'.brk = s.brk
  threads : ∀ p, (s'.procs p).threads = (s.procs p).threads
  tid : ∀ a, (s'.heap a).tid = (s.heap a).tid
  proc : ∀ a, (s'.heap a).proc = (s.heap a).proc

/-- Well-formed memory: every listed context was allocated, points back to
the process that lists it, no list holds a thread id twice, and `curthread`,
when not NULL, is in the list of its process. -/
structure WF (s : State) : Prop where
  fresh : ∀ p a, a ∈ (s.procs p).threads → a < s.brk
  owner : ∀ p a, a ∈ (s.procs p).threads → (s.heap a).proc = p
  uniq : ∀ p, ((s.procs p).threads.map (fun a => (s.heap a).tid)).Nodup
  cur : ∀ c, s.curthread = some c → c ∈ (s.procs (s.heap c).proc).threads

/-- Modelled from the spec: the enumeration `enum arg_type` of `type.h`, which
is not part of the sources at hand.  The thirteen enumerators are the case
labels of `arch_type_sizeof`; `other v` is a value `v` of the underlying
integer type that is none of them. -/
inductive arg_type where
  | ARGTYPE_VOID
  | ARGTYPE_INT
  | ARGTYPE_UINT
  | ARGTYPE_LONG
  | ARGTYPE_ULONG
  | ARGTYPE_CHAR
  | ARGTYPE_SHORT
  | ARGTYPE_USHORT
  | ARGTYPE_FLOAT
  | ARGTYPE_DOUBLE
  | ARGTYPE_ARRAY
  | ARGTYPE_STRUCT
  | ARGTYPE_POINTER
  | other (v : Int)
deriving DecidableEq, Repr

/-- The field of `struct arg_type_info` that `trace.c` reads. -/
structure arg_type_info where
  type : arg_type
deriving DecidableEq, Repr

/-- The cast `(size_t)v`: `size_t` has 64 bits in an x86_64 build and 32 bits
otherwise. -/
def size_t_cast (K : Env) (v : Int) : Nat :=
  (v % (if K.x86_64 then 18446744073709551616 else 4294967296)).toNat

/-- The function `arch_type_sizeof` (lines 158-198).  `proc` is `none` for a
NULL pointer; the result is `none` when the `default` branch calls
`abort()`. -/
def arch_type_sizeof (K : Env) (s : State) (proc : Option Nat) (info : arg_type_info) :
    Option Nat :=
  match proc with
  | none => some (size_t_cast K (-2))
  | some p =>
    match info.type with
    | .ARGTYPE_VOID => some 0
    | .ARGTYPE_CHAR => some 1
    | .ARGTYPE_SHORT => some 2
    | .ARGTYPE_USHORT => some 2
    | .ARGTYPE_INT => some 4
    | .ARGTYPE_UINT => some 4
    | .ARGTYPE_LONG => some (if (s.procs p).e_machine = K.EM_X86_64 then 8 else 4)
    | .ARGTYPE_ULONG => some (if (s.procs p).e_machine = K.EM_X86_64 then 8 else 4)
    | .ARGTYPE_POINTER => some (if (s.procs p).e_machine = K.EM_X86_64 then 8 else 4)
    | .ARGTYPE_FLOAT => some 4
    | .ARGTYPE_DOUBLE => some 8
    | .ARGTYPE_ARRAY => some (size_t_cast K (-2))
    | .ARGTYPE_STRUCT => some (size_t_cast K (-2))
    | .other _ => none

/-- The function `arch_type_alignof` (lines 200-238), with the same
conventions; `ARGTYPE_VOID` has no case label there and falls to `default`. -/
def arch_type_alignof (K : Env) (s : State) (proc : Option Nat) (info : arg_type_info) :
    Option Nat :=
  match proc with
  | none => some (size_t_cast K (-2))
  | some p =>
    match info.type with
    | .ARGTYPE_CHAR => some 1
    | .ARGTYPE_SHORT => some 2
    | .ARGTYPE_USHORT => some 2
    | .ARGTYPE_INT => some 4
    | .ARGTYPE_UINT => some 4
    | .ARGTYPE_LONG => some (if (s.procs p).e_machine = K.EM_X86_64 then 8 else 4)
    | .ARGTYPE_ULONG => some (if (s.procs p).e_machine = K.EM_X86_64 then 8 else 4)
    | .ARGTYPE_POINTER => some (if (s.procs p).e_machine = K.EM_X86_64 then 8 else 4)
    | .ARGTYPE_FLOAT => some 4
    | .ARGTYPE_DOUBLE => some (if (s.procs p).e_machine = K.EM_X86_64 then 8 else 4)
    | .ARGTYPE_ARRAY => some (size_t_cast K (-2))
    | .ARGTYPE_STRUCT => some (size_t_cast K (-2))
    | .ARGTYPE_VOID => none
    | .other _ => none

/-- A call made by the event loop: `curthread = switch_thread(proc, tid)` or
`get_arch_dep(proc)`, together with what the allocator and the kernel answer
during the call. -/
inductive call where
  | switch_thread (proc : Nat) (tid : Int) (alloc : malloc_result)
  | get_arch_dep (proc : Nat) (lwp : lwpinfo_result)
      (alloc : malloc_result) (getregs : Option reg)

/-- The process a call is made on. -/
def call.proc : call → Nat
  | .switch_thread p _ _ => p
  | .get_arch_dep p _ _ _ => p

/-- Whether the `malloc` of line 81 succeeds during the call. -/
def call.alloc_ok : call → Bool
  | .switch_thread _ _ a => a.isSome
  | .get_arch_dep _ _ a _ => a.isSome

/-- The memory after one call, `none` when the call dereferences NULL. -/
def step (K : Env) (s : State) : call → Option State
  | .switch_thread p tid a => some (activate s p tid a)
  | .get_arch_dep p lwp a g => get_arch_dep K s p lwp a g

/-- The memory after a sequence of calls. -/
def run (K : Env) : State → List call → Option State
  | s, [] => some s
  | s, c :: cs =>
    match step K s c with
    | none => none
    | some s' => run K s' cs

/-- The sequence with every call on process `q` removed. -/
def without (q : Nat) (cs : List call) : List call :=
  cs.filter (fun c => decide (c.proc ≠ q))

/-- Every listed context has a call-stack buffer: its `callstack` pointer is
not NULL. -/
def Buffers (s : State) : Prop :=
  ∀ p a, a ∈ (s.procs p).threads → (s.heap a).callstack_null = false

/-- The contexts of process `p` whose `saved` flag is 0. -/
def unsaved (s : State) (p : Nat) : List Nat :=
  (s.procs p).threads.filter (fun a => decide ((s.heap a).saved = 0))

/-- A call `switch_thread(p, tid)` enters `p` regularly: `curthread` belongs
to `p`, or no context of `p` other than the one of `tid` is unsaved. -/
def Regular (s : State) (p : Nat) (tid : Int) : Prop :=
  (∃ c, s.curthread = some c ∧ (s.heap c).proc = p) ∨
  ∀ a, a ∈ (s.procs p).threads → (s.heap a).saved = 0 → (s.heap a).tid = tid

/-- The memories reachable, over any number of traced processes, when every
call that switches threads is regular. -/
inductive ReachableRegular (K : Env) : State → Prop where
  | init (s : State) : s.curthread = none → (∀ p, (s.procs p).threads = []) →
      ReachableRegular K s
  | switch (s : State) (p : Nat) (tid : Int) (alloc : malloc_result) :
      Regular s p tid → ReachableRegular K s → ReachableRegular K (activate s p tid alloc)
  | probe (s s' : State) (p : Nat) (info : ptrace_lwpinfo)
      (alloc : malloc_result) (getregs : Option reg) :
      Regular s p info.pl_lwpid → ReachableRegular K s →
      get_arch_dep K s p (.ok info) alloc getregs = some s' → ReachableRegular K s'
  | edit (s : State) (p depth : Nat) (cs : Nat → callstack_element) (eh : Option Nat) :
      ReachableRegular K s → ReachableRegular K (set_callstack s p depth cs eh)

/-- No process lists two unsaved contexts, and an unsaved context of the
process that `curthread` belongs to is `curthread`. -/
structure Tidy (s : State) : Prop where
  one : ∀ p a b, a ∈ (s.procs p).threads → b ∈ (s.procs p).threads →
    (s.heap a).saved = 0 → (s.heap b).saved = 0 → a = b
  own : ∀ c a, s.curthread = some c → a ∈ (s.procs (s.heap c).proc).threads →
    (s.heap a).saved = 0 → a = c

/-! ## Concrete memories -/

/-- A buffer of library-call frames. -/
def ex_buf : Nat → callstack_element := fun _ => ⟨0, 0⟩

/-- The call stack `[lib-call, syscall#5]`. -/
def ex_stack : Nat → callstack_element :=
  fun i => if i = 1 then ⟨5, 1⟩ else ⟨0, 0⟩

/-- A traced amd64 process before its first stop. -/
def ex_proc : process where
  pid := 100
  e_machine := 62
  mask_32bit := 0
  personality := 0
  callstack_depth := 0
  callstack := ex_buf
  event_handler := none
  threads := []
  lwpinfo := ⟨0, 0⟩

/-- The content of memory that was never written. -/
def ex_thread : threadinfo where
  tid := 0
  onstep := 0
  proc := 0
  saved := 0
  callstack_depth := 0
  callstack := ex_buf
  callstack_null := false
  event_handler := none
  regs := ⟨0, 0⟩
  valid_regs := 0

/-- The initial memory: `curthread` is NULL and no process has a thread. -/
def ex_init : State where
  curthread := none
  procs := fun _ => ex_proc
  heap := fun _ => ex_thread
  brk := 0

/-- Thread 1 of process 0 is active with the depth-2 call stack
`[lib-call, syscall#5]` and event handler 7. -/
def ex_active : State :=
  set_callstack (activate ex_init 0 1 (some (some ex_buf))) 0 2 ex_stack (some 7)

/-- Thread 1 of process 0 is activated, then thread 1 of process 1, then
thread 2 of process 0. -/
def ex_cross : State :=
  activate (activate (activate ex_init 0 1 (some (some ex_buf))) 1 1 (some (some ex_buf))) 0 2 (some (some ex_buf))

/-- The first stop of process 0, a syscall entry of thread 1: `pl_flags` is
`PL_FLAG_SCE` and the fetched registers hold 59 (`execve`). -/
def ex_entry : State :=
  (get_arch_dep freebsd_amd64 ex_init 0 (.ok ⟨1, 4⟩) (some (some ex_buf)) (some ⟨59, 59⟩)).getD ex_init

/-- A syscall exit of thread 1 of process 0: `pl_flags` is `PL_FLAG_SCX` and
the call stack is `[lib-call, syscall#5]`. -/
def ex_exit : State :=
  set_callstack
    ((get_arch_dep freebsd_amd64 ex_init 0 (.ok ⟨1, 8⟩) (some (some ex_buf)) (some ⟨0, 0⟩)).getD ex_init)
    0 2 ex_stack none

/-- Thread 1 of process 0 was activated, then thread 1 of process 1:
`curthread` belongs to process 1, and the context of thread 1 of process 0
(at address 0) still holds the state of process 0. -/
def ex_two : State :=
  activate (activate ex_init 0 1 (some (some ex_buf))) 1 1 (some (some ex_buf))

/-- Thread 1 of process 0 was saved with `[lib-call, syscall#5]`; thread 2 is
current and its call stack is empty. -/
def ex_saved : State :=
  set_callstack (activate ex_active 0 2 (some (some ex_buf))) 0 0 ex_buf none

/-- The calls on thread 1 of process 1 and then on thread 2 of process 0,
`malloc` succeeding each time. -/
def ex_calls_later : List call :=
  [.switch_thread 1 1 (some (some ex_buf)), .switch_thread 0 2 (some (some ex_buf))]

/-- Thread 1 of process 0, then thread 1 of process 1, then thread 2 of
process 0, `malloc` succeeding each time. -/
def ex_calls : List call :=
  [.switch_thread 0 1 (some (some ex_buf)), .switch_thread 1 1 (some (some ex_buf)),
   .switch_thread 0 2 (some (some ex_buf))]

/-- After `ex_two`, process 0 is entered again through its thread 1. -/
def ex_reenter : State :=
  activate ex_two 0 1 (some (some ex_buf))

/-! ## Shape lemmas -/

theorem SameShape.rfl_ (s : State) : SameShape s s :=
  ⟨rfl, fun _ => rfl, fun _ => rfl, fun _ => rfl⟩

theorem SameShape.trans_ {s s' s'' : State} (h : SameShape s s') (h' : SameShape s' s'') :
    SameShape s s'' :=
  ⟨by rw [h'.brk, h.brk], fun p => by rw [h'.threads, h.threads],
   fun a => by rw [h'.tid, h.tid], fun a => by rw [h'.proc, h.proc]⟩

theorem SameShape.with_cur {s s' : State} (h : SameShape s s') (c : Option Nat) :
    SameShape s { s' with curthread := c } :=
  ⟨h.brk, h.threads, h.tid, h.proc⟩

theorem sameShape_save_context (s : State) (c proc : Nat) :
    SameShape s (save_context s c proc) := by
  refine ⟨rfl, fun _ => rfl, fun a => ?_, fun a => ?_⟩ <;>
    by_cases h : a = c <;> simp [save_context, setThread, h]

theorem sameShape_switch_save (s : State) (proc : Nat) :
    SameShape s (switch_save s proc) := by
  unfold switch_save
  split
  · split
    · exact sameShape_save_context s _ proc
    · exact SameShape.rfl_ s
  · exact SameShape.rfl_ s

theorem sameShape_load_context (s : State) (td proc : Nat) :
    SameShape s (load_context s td proc) := by
  refine ⟨rfl, fun p => ?_, fun _ => rfl, fun _ => rfl⟩
  by_cases h : p = proc <;> simp [load_context, setProc, h]

theorem sameShape_set_callstack (s : State) (p depth : Nat) (cs : Nat → callstack_element)
    (eh : Option Nat) : SameShape s (set_callstack s p depth cs eh) := by
  refine ⟨rfl, fun q => ?_, fun _ => rfl, fun _ => rfl⟩
  by_cases h : q = p <;> simp [set_callstack, setProc, h]

theorem sameShape_fetch_regs (s : State) (c : Nat) (getregs : Option reg) :
    SameShape s (fetch_regs s c getregs) := by
  cases getregs <;>
  · refine ⟨rfl, fun _ => rfl, fun a => ?_, fun a => ?_⟩ <;>
      by_cases h : a = c <;> simp [fetch_regs, setThread, h]

theorem set_mode_threads (K : Env) (x : process) : (set_mode K x).threads = x.threads := by
  unfold set_mode
  split
  · rfl
  · split <;> rfl

theorem sameShape_setProc (s : State) (p : Nat) (x : process)
    (hx : x.threads = (s.procs p).threads) : SameShape s (setProc s p x) := by
  refine ⟨rfl, fun q => ?_, fun _ => rfl, fun _ => rfl⟩
  by_cases h : q = p
  · subst h; simp [setProc, hx]
  · simp [setProc, h]

@[simp] theorem switch_save_curthread (s : State) (proc : Nat) :
    (switch_save s proc).curthread = s.curthread := by
  unfold switch_save
  split
  · split <;> rfl
  · rfl

/-- Well-formedness moves along `SameShape` when `curthread` stays listed. -/
theorem WF.of_sameShape {s s' : State} (h : WF s) (hs : SameShape s s')
    (hc : ∀ c, s'.curthread = some c → c ∈ (s.procs (s.heap c).proc).threads) : WF s' := by
  have hfun : (fun a => (s'.heap a).tid) = (fun a => (s.heap a).tid) := funext hs.tid
  refine ⟨fun p a ha => ?_, fun p a ha => ?_, fun p => ?_, fun c hcur => ?_⟩
  · rw [hs.brk]; rw [hs.threads] at ha; exact h.fresh p a ha
  · rw [hs.proc]; rw [hs.threads] at ha; exact h.owner p a ha
  · rw [hs.threads, hfun]; exact h.uniq p
  · rw [hs.threads, hs.proc]; exact hc c hcur

/-! ## The search of the thread list -/

theorem find_tid_some {s : State} {proc td : Nat} {tid : Int}
    (hf : (s.procs proc).threads.find? (fun td => decide ((s.heap td).tid = tid)) = some td) :
    td ∈ (s.procs proc).threads ∧ (s.heap td).tid = tid := by
  refine ⟨List.mem_of_find?_eq_some hf, ?_⟩
  have := List.find?_some hf
  simpa using this

theorem find_tid_none {s : State} {proc : Nat} {tid : Int}
    (hf : (s.procs proc).threads.find? (fun td => decide ((s.heap td).tid = tid)) = none) :
    ∀ a ∈ (s.procs proc).threads, (s.heap a).tid ≠ tid := by
  intro a ha
  have := List.find?_eq_none.mp hf a ha
  simpa using this

/-- In a well-formed memory the search finds the listed context of a thread
id. -/
theorem find_tid_of_mem {s : State} (h : WF s) {proc c : Nat}
    (hc : c ∈ (s.procs proc).threads) :
    (s.procs proc).threads.find? (fun td => decide ((s.heap td).tid = (s.heap c).tid))
      = some c := by
  cases hf : (s.procs proc).threads.find? (fun td => decide ((s.heap td).tid = (s.heap c).tid)) with
  | none => exact absurd rfl (find_tid_none hf c hc)
  | some td =>
    obtain ⟨hm, ht⟩ := find_tid_some hf
    exact congrArg some (List.inj_on_of_nodup_map (h.uniq proc) hm hc ht)

theorem WF_new_thread {s : State} (h : WF s) (proc : Nat) (tid : Int)
    (buf : Option (Nat → callstack_element))
    (hn : ∀ a ∈ (s.procs proc).threads, (s.heap a).tid ≠ tid) :
    WF { new_thread s proc tid buf with curthread := some s.brk } := by
  have hold : ∀ q a, a ∈ (s.procs q).threads → a ≠ s.brk :=
    fun q a ha => Nat.ne_of_lt (h.fresh q a ha)
  refine ⟨fun q a ha => ?_, fun q a ha => ?_, fun q => ?_, fun c hc => ?_⟩
  · by_cases hq : q = proc
    · subst hq
      simp only [new_thread, if_true, List.mem_cons] at ha
      rcases ha with ha | ha
      · simp [new_thread, ha]
      · exact Nat.lt_succ_of_lt (h.fresh q a ha)
    · simp only [new_thread, if_neg hq] at ha
      exact Nat.lt_succ_of_lt (h.fresh q a ha)
  · by_cases hq : q = proc
    · subst hq
      simp only [new_thread, if_true, List.mem_cons] at ha
      rcases ha with ha | ha
      · simp [new_thread, ha]
      · simp [new_thread, hold q a ha, h.owner q a ha]
    · simp only [new_thread, if_neg hq] at ha
      simp [new_thread, hold q a ha, h.owner q a ha]
  · have hmap : ∀ q, List.map (fun a => ((new_thread s proc tid buf).heap a).tid)
        (s.procs q).threads = List.map (fun a => (s.heap a).tid) (s.procs q).threads := by
      intro q
      apply List.map_congr_left
      intro a ha
      simp [new_thread, hold q a ha]
    by_cases hq : q = proc
    · subst hq
      have hnot : tid ∉ List.map (fun a => (s.heap a).tid) (s.procs q).threads := by
        intro hmem
        obtain ⟨a, ha, hat⟩ := List.mem_map.mp hmem
        exact hn a ha hat
      have hcons : List.map (fun a => ((new_thread s q tid buf).heap a).tid)
          (s.brk :: (s.procs q).threads)
          = tid :: List.map (fun a => (s.heap a).tid) (s.procs q).threads := by
        rw [List.map_cons, hmap q]
        simp [new_thread]
      simp only [new_thread, if_true] at hcons ⊢
      rw [hcons]
      exact List.nodup_cons.mpr ⟨hnot, h.uniq q⟩
    · have := hmap q
      simp only [new_thread, if_neg hq] at this ⊢
      rw [this]
      exact h.uniq q
  · simp only [Option.some.injEq] at hc
    subst hc
    simp [new_thread]

/-! ## `switch_thread` keeps the memory well formed -/

theorem WF_switch_save {s : State} (h : WF s) (proc : Nat) : WF (switch_save s proc) :=
  h.of_sameShape (sameShape_switch_save s proc) (fun c hc => h.cur c (by simpa using hc))

/-- What the search phase returns in a well-formed memory: the memory stays
well formed with `curthread` set to the result, and when the `malloc` of
line 81 succeeds the result is a listed context of `proc` with the requested
thread id. -/
theorem switch_find_post {s : State} (h : WF s) (proc : Nat) (tid : Int)
    (alloc : malloc_result) :
    WF { (switch_find s proc tid alloc).1 with curthread := (switch_find s proc tid alloc).2 } ∧
    (alloc.isSome = true → ∃ c, (switch_find s proc tid alloc).2 = some c ∧
      ((switch_find s proc tid alloc).1.heap c).tid = tid ∧
      ((switch_find s proc tid alloc).1.heap c).proc = proc ∧
      c ∈ ((switch_find s proc tid alloc).1.procs proc).threads) := by
  unfold switch_find
  cases hf : (s.procs proc).threads.find? (fun td => decide ((s.heap td).tid = tid)) with
  | some td =>
    obtain ⟨hm, ht⟩ := find_tid_some hf
    have ho := h.owner proc td hm
    by_cases hs : (s.heap td).saved = 0
    · simp only [hs, if_true]
      refine ⟨h.of_sameShape ((SameShape.rfl_ s).with_cur _) ?_, fun _ => ⟨td, rfl, ht, ho, hm⟩⟩
      intro c hc
      simp only [Option.some.injEq] at hc
      subst hc
      rw [ho]; exact hm
    · simp only [hs, if_false]
      have hsh := sameShape_load_context s td proc
      refine ⟨h.of_sameShape (hsh.with_cur _) ?_, fun _ => ⟨td, rfl, ?_, ?_, ?_⟩⟩
      · intro c hc
        simp only [Option.some.injEq] at hc
        subst hc
        rw [ho]; exact hm
      · rw [hsh.tid]; exact ht
      · rw [hsh.proc]; exact ho
      · rw [hsh.threads]; exact hm
  | none =>
    have hn := find_tid_none hf
    cases alloc with
    | none =>
      refine ⟨h.of_sameShape ((SameShape.rfl_ s).with_cur _) (fun c hc => h.cur c hc), ?_⟩
      intro hx; simp at hx
    | some buf =>
      refine ⟨WF_new_thread h proc tid buf hn, fun _ => ⟨s.brk, rfl, ?_, ?_, ?_⟩⟩ <;>
        simp [new_thread]

/-- The same for the whole of `switch_thread`. -/
theorem switch_thread_post {s : State} (h : WF s) (proc : Nat) (tid : Int)
    (alloc : malloc_result) :
    WF (activate s proc tid alloc) ∧
    (alloc.isSome = true → ∃ c, (switch_thread s proc tid alloc).2 = some c ∧
      ((switch_thread s proc tid alloc).1.heap c).tid = tid ∧
      ((switch_thread s proc tid alloc).1.heap c).proc = proc ∧
      c ∈ ((switch_thread s proc tid alloc).1.procs proc).threads) := by
  unfold activate switch_thread
  cases hcur : s.curthread with
  | none => exact switch_find_post (WF_switch_save h proc) proc tid alloc
  | some c =>
    by_cases hsame : (s.heap c).proc = proc ∧ (s.heap c).tid = tid
    · simp only [hsame, and_self, if_true]
      refine ⟨h.of_sameShape ((SameShape.rfl_ s).with_cur _) ?_, fun _ => ⟨c, rfl, hsame.2, hsame.1, ?_⟩⟩
      · intro d hd
        simp only [Option.some.injEq] at hd
        subst hd
        exact h.cur _ hcur
      · have := h.cur c hcur
        rw [hsame.1] at this
        simpa [hsame.1] using this
    · simp only [hsame, if_false]
      exact switch_find_post (WF_switch_save h proc) proc tid alloc

theorem WF_activate {s : State} (h : WF s) (proc : Nat) (tid : Int)
    (alloc : malloc_result) : WF (activate s proc tid alloc) :=
  (switch_thread_post h proc tid alloc).1

theorem WF_set_callstack {s : State} (h : WF s) (p depth : Nat)
    (cs : Nat → callstack_element) (eh : Option Nat) : WF (set_callstack s p depth cs eh) :=
  h.of_sameShape (sameShape_set_callstack s p depth cs eh) (fun c hc => h.cur c hc)

theorem WF_get_arch_dep {K : Env} {s s' : State} (h : WF s) {p : Nat} {lwp : lwpinfo_result}
    {alloc : malloc_result} {getregs : Option reg}
    (hg : get_arch_dep K s p lwp alloc getregs = some s') : WF s' := by
  unfold get_arch_dep at hg
  cases lwp with
  | error e => simp only [Option.some.injEq] at hg; exact hg ▸ h
  | ok info =>
    simp only at hg
    have h1 : WF (setProc s p { s.procs p with lwpinfo := info }) :=
      h.of_sameShape (sameShape_setProc s p _ rfl) (fun c hc => h.cur c hc)
    have h2 := WF_activate h1 p info.pl_lwpid alloc
    cases hc : (activate (setProc s p { s.procs p with lwpinfo := info }) p
        info.pl_lwpid alloc).curthread with
    | none => rw [hc] at hg; simp at hg
    | some c =>
      rw [hc] at hg
      simp only [Option.some.injEq] at hg
      subst hg
      have h3 : WF (fetch_regs (activate (setProc s p { s.procs p with lwpinfo := info }) p
          info.pl_lwpid alloc) c getregs) :=
        h2.of_sameShape (sameShape_fetch_regs _ c getregs) (fun d hd => h2.cur d (by
          cases getregs <;> simpa [fetch_regs, setThread] using hd))
      exact h3.of_sameShape (sameShape_setProc _ p _ (set_mode_threads K _))
        (fun d hd => h3.cur d hd)

/-- Every reachable memory is well formed. -/
theorem Reachable.wf {K : Env} {s : State} (h : Reachable K s) : WF s := by
  induction h with
  | init s hc ht =>
    refine ⟨fun p a ha => ?_, fun p a ha => ?_, fun p => ?_, fun c hcur => ?_⟩
    · rw [ht p] at ha; cases ha
    · rw [ht p] at ha; cases ha
    · rw [ht p]; exact List.nodup_nil
    · rw [hc] at hcur; cases hcur
  | switch s p tid alloc _ _ ih => exact WF_activate ih p tid alloc
  | probe s s' p lwp alloc getregs _ _ hg ih => exact WF_get_arch_dep ih hg
  | edit s p depth cs eh _ ih => exact WF_set_callstack ih p depth cs eh

/-! ## Every context of a reachable memory has a call-stack buffer -/

theorem save_context_null (s : State) (c proc a : Nat) :
    ((save_context s c proc).heap a).callstack_null = (s.heap a).callstack_null := by
  by_cases h : a = c
  · subst h; simp [save_context, setThread]
  · simp [save_context, setThread, h]

theorem switch_save_null (s : State) (proc a : Nat) :
    ((switch_save s proc).heap a).callstack_null = (s.heap a).callstack_null := by
  unfold switch_save
  split
  · split
    · exact save_context_null s _ proc a
    · rfl
  · rfl

theorem fetch_regs_null (s : State) (c : Nat) (getregs : Option reg) (a : Nat) :
    ((fetch_regs s c getregs).heap a).callstack_null = (s.heap a).callstack_null := by
  cases getregs <;> by_cases h : a = c <;> simp [fetch_regs, setThread, h]

/-- The buffers stay in place in a memory with the same thread lists and the
same NULL flags. -/
theorem Buffers.of_same_lists {s s' : State} (h : Buffers s)
    (ht : ∀ q, (s'.procs q).threads = (s.procs q).threads)
    (hn : ∀ a, (s'.heap a).callstack_null = (s.heap a).callstack_null) : Buffers s' := by
  intro q a ha
  rw [ht] at ha
  rw [hn]
  exact h q a ha

theorem Buffers_switch_find {s : State} (hfresh : ∀ q a, a ∈ (s.procs q).threads → a < s.brk)
    (h : Buffers s) (proc : Nat) (tid : Int) (alloc : malloc_result)
    (halloc : alloc ≠ some none) : Buffers (switch_find s proc tid alloc).1 := by
  unfold switch_find
  cases (s.procs proc).threads.find? (fun td => decide ((s.heap td).tid = tid)) with
  | some td =>
    by_cases hs : (s.heap td).saved = 0
    · simpa [hs] using h
    · simp only [hs, if_false]
      exact h.of_same_lists (sameShape_load_context s td proc).threads (fun _ => rfl)
  | none =>
    cases alloc with
    | none => exact h
    | some buf =>
      cases buf with
      | none => exact absurd rfl halloc
      | some b =>
        intro q a ha
        by_cases hq : q = proc
        · subst hq
          simp only [new_thread, if_true, List.mem_cons] at ha
          rcases ha with ha | ha
          · subst ha; simp [new_thread]
          · have hne : a ≠ s.brk := Nat.ne_of_lt (hfresh q a ha)
            simpa [new_thread, hne] using h q a ha
        · simp only [new_thread, if_neg hq] at ha
          have hne : a ≠ s.brk := Nat.ne_of_lt (hfresh q a ha)
          simpa [new_thread, hne] using h q a ha

theorem Buffers_activate {s : State} (hwf : WF s) (h : Buffers s) (proc : Nat) (tid : Int)
    (alloc : malloc_result) (halloc : alloc ≠ some none) :
    Buffers (activate s proc tid alloc) := by
  have hsave : Buffers (switch_save s proc) :=
    h.of_same_lists (sameShape_switch_save s proc).threads (switch_save_null s proc)
  have hfind : Buffers (switch_find (switch_save s proc) proc tid alloc).1 :=
    Buffers_switch_find (WF_switch_save hwf proc).fresh hsave proc tid alloc halloc
  show Buffers (switch_thread s proc tid alloc).1
  unfold switch_thread
  cases s.curthread with
  | none => exact hfind
  | some c =>
    by_cases hsame : (s.heap c).proc = proc ∧ (s.heap c).tid = tid
    · dsimp only
      rw [if_pos hsame]; exact h
    · dsimp only
      rw [if_neg hsame]; exact hfind

theorem Buffers_get_arch_dep {K : Env} {s s' : State} (hwf : WF s) (h : Buffers s) {p : Nat}
    {lwp : lwpinfo_result} {alloc : malloc_result} {getregs : Option reg}
    (halloc : alloc ≠ some none)
    (hg : get_arch_dep K s p lwp alloc getregs = some s') : Buffers s' := by
  unfold get_arch_dep at hg
  cases lwp with
  | error e => simp only [Option.some.injEq] at hg; exact hg ▸ h
  | ok info =>
    simp only at hg
    have hsh1 := sameShape_setProc s p { s.procs p with lwpinfo := info } rfl
    have h1 : WF (setProc s p { s.procs p with lwpinfo := info }) :=
      hwf.of_sameShape hsh1 (fun c hc => hwf.cur c hc)
    have hb1 : Buffers (setProc s p { s.procs p with lwpinfo := info }) :=
      h.of_same_lists hsh1.threads (fun _ => rfl)
    have hb2 := Buffers_activate h1 hb1 p info.pl_lwpid alloc halloc
    cases hc : (activate (setProc s p { s.procs p with lwpinfo := info }) p
        info.pl_lwpid alloc).curthread with
    | none => rw [hc] at hg; simp at hg
    | some c =>
      rw [hc] at hg
      simp only [Option.some.injEq] at hg
      subst hg
      have hb3 := hb2.of_same_lists (sameShape_fetch_regs _ c getregs).threads
        (fetch_regs_null _ c getregs)
      exact hb3.of_same_lists (sameShape_setProc _ p _ (set_mode_threads K _)).threads
        (fun _ => rfl)

/-- In a reachable memory no listed context has a NULL `callstack`, so the
copies of `save_context` and `load_context` go through valid pointers. -/
theorem Reachable.buffers {K : Env} {s : State} (h : Reachable K s) : Buffers s := by
  induction h with
  | init s hc ht =>
    intro p a ha
    rw [ht p] at ha; cases ha
  | switch s p tid alloc ha hr ih => exact Buffers_activate hr.wf ih p tid alloc ha
  | probe s s' p lwp alloc getregs ha hr hg ih => exact Buffers_get_arch_dep hr.wf ih ha hg
  | edit s p depth cs eh _ ih =>
    exact ih.of_same_lists (sameShape_set_callstack s p depth cs eh).threads (fun _ => rfl)

/-! ## What the search phase leaves alone -/

theorem switch_find_heap (s : State) (proc : Nat) (tid : Int)
    (alloc : malloc_result) (a : Nat) (ha : a ≠ s.brk) :
    (switch_find s proc tid alloc).1.heap a = s.heap a := by
  unfold switch_find
  cases (s.procs proc).threads.find? (fun td => decide ((s.heap td).tid = tid)) with
  | some td =>
    by_cases hs : (s.heap td).saved = 0
    · simp [hs]
    · simp [hs, load_context, setProc]
  | none =>
    cases alloc with
    | none => rfl
    | some buf => simp [new_thread, ha]

theorem switch_find_mem (s : State) (proc : Nat) (tid : Int)
    (alloc : malloc_result) (q a : Nat) (ha : a ∈ (s.procs q).threads) :
    a ∈ ((switch_find s proc tid alloc).1.procs q).threads := by
  unfold switch_find
  cases (s.procs proc).threads.find? (fun td => decide ((s.heap td).tid = tid)) with
  | some td =>
    by_cases hs : (s.heap td).saved = 0
    · simpa [hs] using ha
    · simp only [hs, if_false]
      rw [(sameShape_load_context s td proc).threads]; exact ha
  | none =>
    cases alloc with
    | none => exact ha
    | some buf =>
      by_cases hq : q = proc
      · subst hq; simp [new_thread, ha]
      · simpa [new_thread, hq] using ha

/-- When the current context `c` belongs to `proc` and has another thread id,
`switch_thread` is the save of `c` followed by the search. -/
theorem switch_thread_other {s : State} {proc c : Nat} {tid : Int}
    (alloc : malloc_result)
    (hcur : s.curthread = some c) (hp : (s.heap c).proc = proc) (ht : (s.heap c).tid ≠ tid) :
    switch_thread s proc tid alloc = switch_find (save_context s c proc) proc tid alloc := by
  unfold switch_thread switch_save
  simp [hcur, hp, ht]

/-- The snapshot taken when the current context `c` of `proc` is switched
away from: `c` is marked saved and holds the depth, the frames below the depth
and the event handler that `proc` had; `c` keeps its thread id and stays
listed. -/
theorem snapshot_post {s : State} {proc c : Nat} {tid : Int}
    (alloc : malloc_result)
    (hcur : s.curthread = some c) (hp : (s.heap c).proc = proc) (ht : (s.heap c).tid ≠ tid)
    (hlive : c < s.brk) :
    ((switch_thread s proc tid alloc).1.heap c).saved = 1 ∧
    ((switch_thread s proc tid alloc).1.heap c).callstack_depth
      = (s.procs proc).callstack_depth ∧
    (∀ i, i < (s.procs proc).callstack_depth →
      ((switch_thread s proc tid alloc).1.heap c).callstack i = (s.procs proc).callstack i) ∧
    ((switch_thread s proc tid alloc).1.heap c).event_handler
      = (s.procs proc).event_handler ∧
    ((switch_thread s proc tid alloc).1.heap c).tid = (s.heap c).tid := by
  rw [switch_thread_other alloc hcur hp ht,
    switch_find_heap _ proc tid alloc c (by
      have : (save_context s c proc).brk = s.brk := rfl
      rw [this]; exact Nat.ne_of_lt hlive)]
  refine ⟨by simp [save_context, setThread], by simp [save_context, setThread], ?_,
    by simp [save_context, setThread], by simp [save_context, setThread]⟩
  intro i hi
  simp [save_context, setThread, memcpy, hi]

theorem switch_thread_mem (s : State) (proc : Nat) (tid : Int)
    (alloc : malloc_result) (q a : Nat) (ha : a ∈ (s.procs q).threads) :
    a ∈ ((switch_thread s proc tid alloc).1.procs q).threads := by
  have hsv : a ∈ ((switch_save s proc).procs q).threads := by
    rw [(sameShape_switch_save s proc).threads]; exact ha
  unfold switch_thread
  cases s.curthread with
  | none => exact switch_find_mem _ proc tid alloc q a hsv
  | some c =>
    by_cases hsame : (s.heap c).proc = proc ∧ (s.heap c).tid = tid
    · simpa [hsame] using ha
    · simp only [hsame, if_false]
      exact switch_find_mem _ proc tid alloc q a hsv

/-- The restore: when the current context `a` of `proc` is switched away from
towards a listed context `c` of `proc` that is marked saved, the transient
depth, frames and event handler of `proc` become those stored in `c`. -/
theorem restore_post {s : State} (h : WF s) {proc c a : Nat}
    (alloc : malloc_result)
    (hcur : s.curthread = some a) (hpa : (s.heap a).proc = proc)
    (hne : (s.heap a).tid ≠ (s.heap c).tid) (hc : c ∈ (s.procs proc).threads)
    (hsaved : (s.heap c).saved ≠ 0) :
    ((switch_thread s proc (s.heap c).tid alloc).1.procs proc).callstack_depth
      = (s.heap c).callstack_depth ∧
    (∀ i, i < (s.heap c).callstack_depth →
      ((switch_thread s proc (s.heap c).tid alloc).1.procs proc).callstack i
        = (s.heap c).callstack i) ∧
    ((switch_thread s proc (s.heap c).tid alloc).1.procs proc).event_handler
      = (s.heap c).event_handler := by
  have hca : c ≠ a := fun e => hne (by rw [e])
  have hsh := sameShape_save_context s a proc
  have hwf : WF (save_context s a proc) :=
    h.of_sameShape hsh (fun d hd => h.cur d hd)
  have hheap : (save_context s a proc).heap c = s.heap c := by
    simp [save_context, setThread, hca]
  have hc' : c ∈ ((save_context s a proc).procs proc).threads := by
    rw [hsh.threads]; exact hc
  have hfind := find_tid_of_mem hwf hc'
  rw [hheap] at hfind
  rw [switch_thread_other alloc hcur hpa hne]
  unfold switch_find
  rw [hfind]
  simp only [hheap, hsaved, if_false]
  refine ⟨by simp [load_context, setProc, hheap], ?_, by simp [load_context, setProc, hheap]⟩
  intro i hi
  simp [load_context, setProc, hheap, memcpy, hi]

theorem get_arch_dep_post (K : Env) {s : State} (h : WF s) (p : Nat) (info : ptrace_lwpinfo)
    (buf : Option (Nat → callstack_element)) (getregs : Option reg) :
    ∃ s' c, get_arch_dep K s p (.ok info) (some buf) getregs = some s' ∧
      s'.curthread = some c ∧ (s'.heap c).tid = info.pl_lwpid ∧ (s'.heap c).proc = p ∧
      c ∈ (s'.procs p).threads := by
  have h1 : WF (setProc s p { s.procs p with lwpinfo := info }) :=
    h.of_sameShape (sameShape_setProc s p _ rfl) (fun c hc => h.cur c hc)
  obtain ⟨c, hres, htid, hproc, hmem⟩ :=
    (switch_thread_post h1 p info.pl_lwpid (some buf)).2 rfl
  have hcur : (activate (setProc s p { s.procs p with lwpinfo := info }) p info.pl_lwpid
      (some buf)).curthread = some c := hres
  have hsh := (sameShape_fetch_regs (activate (setProc s p { s.procs p with lwpinfo := info })
      p info.pl_lwpid (some buf)) c getregs).trans_
    (sameShape_setProc _ p (set_mode K _) (set_mode_threads K _))
  unfold get_arch_dep
  simp only [hcur]
  refine ⟨_, c, rfl, ?_, ?_, ?_, ?_⟩
  · cases getregs <;> simpa [fetch_regs, setThread, setProc] using hcur
  · rw [hsh.tid]; exact htid
  · rw [hsh.proc]; exact hproc
  · rw [hsh.threads]; exact hmem

theorem ex_active_reachable (K : Env) : Reachable K ex_active :=
  .edit _ _ _ _ _ (.switch _ _ _ _ (by simp) (.init ex_init rfl (fun _ => rfl)))

theorem memcpy_again (dst src : Nat → callstack_element) (n : Nat) :
    memcpy (memcpy dst src n) src n = memcpy dst src n := by
  funext i
  by_cases hi : i < n <;> simp [memcpy, hi]

/-- Loading the same context a second time changes nothing. -/
theorem load_context_again (s : State) (td proc : Nat) (c : Option Nat) :
    load_context { load_context s td proc with curthread := c } td proc
      = { load_context s td proc with curthread := c } := by
  simp only [load_context, setProc, if_true, memcpy_again]
  congr 1
  funext q
  by_cases hq : q = proc <;> simp [hq]

/-- The search in a memory that differs only in `curthread`. -/
theorem switch_find_with_cur (s : State) (c : Option Nat) (proc : Nat) (tid : Int)
    (td : Nat)
    (hf : (s.procs proc).threads.find? (fun td => decide ((s.heap td).tid = tid)) = some td)
    (alloc : malloc_result) :
    switch_find { s with curthread := c } proc tid alloc =
      if (s.heap td).saved = 0 then ({ s with curthread := c }, some td)
      else (load_context { s with curthread := c } td proc, some td) := by
  unfold switch_find
  simp only [hf]

/-! ## The thread-context registry: claims C1 to C7 -/

/-- C1 (save/restore round trip).  In a reachable memory whose current context
`c` belongs to process `p`, switch `p` to another thread id `t2` (allocation
succeeding), let the tracer overwrite the transient call stack, depth and
event handler of `p` in any way, and switch back to the thread id of `c`: the
transient depth of `p`, and every frame below that depth, are what they were
before the first switch. -/
theorem C1_round_trip (K : Env) (s : State) (p c : Nat) (t2 : Int)
    (buf2 : Nat → callstack_element) (alloc1 : malloc_result)
    (depth : Nat) (cs : Nat → callstack_element) (eh : Option Nat)
    (hr : Reachable K s) (hcur : s.curthread = some c) (hp : (s.heap c).proc = p)
    (ht : (s.heap c).tid ≠ t2) :
    ((activate (set_callstack (activate s p t2 (some (some buf2))) p depth cs eh) p (s.heap c).tid
        alloc1).procs p).callstack_depth = (s.procs p).callstack_depth ∧
    ∀ i, i < (s.procs p).callstack_depth →
      ((activate (set_callstack (activate s p t2 (some (some buf2))) p depth cs eh) p (s.heap c).tid
        alloc1).procs p).callstack i = (s.procs p).callstack i := by
  have hwf := hr.wf
  have hcp : c ∈ (s.procs p).threads := hp ▸ hwf.cur c hcur
  have hlive : c < s.brk := hwf.fresh p c hcp
  obtain ⟨hsav, hdep, hfr, -, htid⟩ := snapshot_post (some (some buf2)) hcur hp ht hlive
  obtain ⟨hwf1, hpost⟩ := switch_thread_post hwf p t2 (some (some buf2))
  obtain ⟨a, hres, hatid, haproc, -⟩ := hpost rfl
  have hmem1 := switch_thread_mem s p t2 (some (some buf2)) p c hcp
  have hwf2 := WF_set_callstack hwf1 p depth cs eh
  have hmem2 : c ∈ ((set_callstack (activate s p t2 (some (some buf2))) p depth cs eh).procs p).threads := by
    rw [(sameShape_set_callstack _ p depth cs eh).threads]; exact hmem1
  have hR := @restore_post _ hwf2 p c a alloc1 hres haproc
    (by
      show ((switch_thread s p t2 (some (some buf2))).1.heap a).tid
        ≠ ((switch_thread s p t2 (some (some buf2))).1.heap c).tid
      rw [hatid, htid]; exact fun e => ht e.symm)
    hmem2
    (by
      show ((switch_thread s p t2 (some (some buf2))).1.heap c).saved ≠ 0
      rw [hsav]; decide)
  have htid2 : ((set_callstack (activate s p t2 (some (some buf2))) p depth cs eh).heap c).tid
      = (s.heap c).tid := htid
  rw [htid2] at hR
  have hdep2 : ((set_callstack (activate s p t2 (some (some buf2))) p depth cs eh).heap c).callstack_depth
      = (s.procs p).callstack_depth := hdep
  rw [hdep2] at hR
  refine ⟨hR.1, fun i hi => ?_⟩
  have := hR.2.1 i hi
  exact this.trans (hfr i hi)

/-- Witness for C1 on the spec's scenario: thread 1 with `[lib-call,
syscall#5]`, a switch to the new thread 2, the stack overwritten at depth 5,
and the switch back to thread 1. -/
theorem C1_round_trip_witness :
    (Reachable freebsd_amd64 ex_active ∧ ex_active.curthread = some 0 ∧
      (ex_active.heap 0).proc = 0 ∧ (ex_active.heap 0).tid ≠ 2) ∧
    (((activate (set_callstack (activate ex_active 0 2 (some (some ex_buf))) 0 5 ex_buf none) 0
        (ex_active.heap 0).tid none).procs 0).callstack_depth
        = (ex_active.procs 0).callstack_depth ∧
     ∀ i, i < (ex_active.procs 0).callstack_depth →
      ((activate (set_callstack (activate ex_active 0 2 (some (some ex_buf))) 0 5 ex_buf none) 0
        (ex_active.heap 0).tid none).procs 0).callstack i = (ex_active.procs 0).callstack i) :=
  ⟨⟨ex_active_reachable _, rfl, rfl, by decide⟩,
   C1_round_trip freebsd_amd64 ex_active 0 0 2 ex_buf none 5 ex_buf none
     (ex_active_reachable _) rfl rfl (by decide)⟩

/-- C4 (idempotence).  In any memory, after `curthread = switch_thread(p, t)`
with allocation succeeding, a second `switch_thread(p, t)` returns the context
the first call returned and leaves the whole memory (every process, its thread
list, every context) as it was. -/
theorem C4_idempotent (s : State) (p : Nat) (t : Int) (buf : Nat → callstack_element)
    (alloc2 : malloc_result) :
    switch_thread (activate s p t (some (some buf))) p t alloc2
      = (activate s p t (some (some buf)), (switch_thread s p t (some (some buf))).2) := by
  have key : ∀ s1 : State,
      switch_thread { (switch_find s1 p t (some (some buf))).1 with
          curthread := (switch_find s1 p t (some (some buf))).2 } p t alloc2
        = ({ (switch_find s1 p t (some (some buf))).1 with
          curthread := (switch_find s1 p t (some (some buf))).2 },
          (switch_find s1 p t (some (some buf))).2) := by
    intro s1
    cases hf : (s1.procs p).threads.find? (fun td => decide ((s1.heap td).tid = t)) with
    | none =>
      have e : switch_find s1 p t (some (some buf)) = (new_thread s1 p t (some buf), some s1.brk) := by
        unfold switch_find; simp only [hf]
      rw [e]
      unfold switch_thread
      simp [new_thread]
    | some td =>
      obtain ⟨-, htid⟩ := find_tid_some hf
      by_cases hs : (s1.heap td).saved = 0
      · have e : switch_find s1 p t (some (some buf)) = (s1, some td) := by
          unfold switch_find; simp only [hf, hs, if_true]
        rw [e]
        by_cases hp : (s1.heap td).proc = p
        · unfold switch_thread
          simp [hp, htid]
        · unfold switch_thread switch_save
          simp only [hp, false_and, if_false]
          rw [switch_find_with_cur s1 (some td) p t td hf alloc2]
          simp [hs]
      · have e : switch_find s1 p t (some (some buf)) = (load_context s1 td p, some td) := by
          unfold switch_find; simp only [hf, hs, if_false]
        rw [e]
        have hheap : (load_context s1 td p).heap = s1.heap := rfl
        by_cases hp : (s1.heap td).proc = p
        · unfold switch_thread
          simp [hheap, hp, htid]
        · have hf2 : ((load_context s1 td p).procs p).threads.find?
              (fun a => decide (((load_context s1 td p).heap a).tid = t)) = some td := by
            rw [(sameShape_load_context s1 td p).threads]; exact hf
          have hp2 : ¬ ((load_context s1 td p).heap td).proc = p := hp
          have hs2 : ¬ ((load_context s1 td p).heap td).saved = 0 := hs
          unfold switch_thread switch_save
          simp only [hp2, false_and, if_false]
          rw [switch_find_with_cur (load_context s1 td p) (some td) p t td hf2 alloc2]
          simp only [hs2, if_false]
          rw [load_context_again]
  unfold activate
  cases hcur : s.curthread with
  | none =>
    have e : switch_thread s p t (some (some buf)) = switch_find (switch_save s p) p t (some (some buf)) := by
      unfold switch_thread; simp only [hcur]
    rw [e]; exact key _
  | some c =>
    by_cases hsame : (s.heap c).proc = p ∧ (s.heap c).tid = t
    · have e : switch_thread s p t (some (some buf)) = (s, some c) := by
        unfold switch_thread; simp only [hcur, hsame, and_self, if_true]
      rw [e]
      unfold switch_thread
      simp [hsame]
    · have e : switch_thread s p t (some (some buf)) = switch_find (switch_save s p) p t (some (some buf)) := by
        unfold switch_thread; simp only [hcur, hsame, if_false]
      rw [e]; exact key _

/-- C3 (postcondition of activation).  In every reachable memory, when `malloc`
succeeds, `switch_thread(p, tid)` returns a non-NULL context whose `tid` is
`tid`, whose `proc` is `p` and which is listed by `p`; and `get_arch_dep(p)`
whose `PT_LWPINFO` request succeeds returns with `curthread` pointing at such
a context for the reported `pl_lwpid`. -/
theorem C3_activation_post (K : Env) (s : State) (hr : Reachable K s) (p : Nat) (tid : Int)
    (buf : Nat → callstack_element) :
    (∃ c, (switch_thread s p tid (some (some buf))).2 = some c ∧
      ((switch_thread s p tid (some (some buf))).1.heap c).tid = tid ∧
      ((switch_thread s p tid (some (some buf))).1.heap c).proc = p ∧
      c ∈ ((switch_thread s p tid (some (some buf))).1.procs p).threads) ∧
    (∀ (info : ptrace_lwpinfo) (getregs : Option reg),
      ∃ s' c, get_arch_dep K s p (.ok info) (some (some buf)) getregs = some s' ∧
        s'.curthread = some c ∧ (s'.heap c).tid = info.pl_lwpid ∧ (s'.heap c).proc = p ∧
        c ∈ (s'.procs p).threads) :=
  ⟨(switch_thread_post hr.wf p tid (some (some buf))).2 rfl,
   fun info getregs => get_arch_dep_post K hr.wf p info (some buf) getregs⟩

/-- Witness for C3: the new thread 2 is requested while thread 1 is active. -/
theorem C3_activation_post_witness :
    Reachable freebsd_amd64 ex_active ∧
    ((∃ c, (switch_thread ex_active 0 2 (some (some ex_buf))).2 = some c ∧
      ((switch_thread ex_active 0 2 (some (some ex_buf))).1.heap c).tid = 2 ∧
      ((switch_thread ex_active 0 2 (some (some ex_buf))).1.heap c).proc = 0 ∧
      c ∈ ((switch_thread ex_active 0 2 (some (some ex_buf))).1.procs 0).threads) ∧
    (∀ (info : ptrace_lwpinfo) (getregs : Option reg),
      ∃ s' c, get_arch_dep freebsd_amd64 ex_active 0 (.ok info) (some (some ex_buf)) getregs = some s' ∧
        s'.curthread = some c ∧ (s'.heap c).tid = info.pl_lwpid ∧ (s'.heap c).proc = 0 ∧
        c ∈ (s'.procs 0).threads)) :=
  ⟨ex_active_reachable _,
   C3_activation_post freebsd_amd64 ex_active (ex_active_reachable _) 0 2 ex_buf⟩

/-- C6, the code at the spec's scenario.  Thread 1 of process 0 is current with
depth 2 and thread id 2 is not yet listed; after `switch_thread(p, 2)` with
allocation succeeding the new context is current, and the transient depth of
the process is still 2 and its top frame is still `syscall#5`. -/
theorem C6_new_thread_keeps_depth :
    Reachable freebsd_amd64 ex_active ∧ ex_active.curthread = some 0 ∧
    (ex_active.heap 0).proc = 0 ∧ (ex_active.heap 0).tid = 1 ∧
    (∀ a ∈ (ex_active.procs 0).threads, (ex_active.heap a).tid ≠ 2) ∧
    (activate ex_active 0 2 (some (some ex_buf))).curthread = some 1 ∧
    ((activate ex_active 0 2 (some (some ex_buf))).heap 1).tid = 2 ∧
    ((activate ex_active 0 2 (some (some ex_buf))).procs 0).callstack_depth = 2 ∧
    ((activate ex_active 0 2 (some (some ex_buf))).procs 0).callstack 1 = ⟨5, 1⟩ :=
  ⟨ex_active_reachable _, rfl, rfl, rfl, by decide, rfl, rfl, rfl, rfl⟩

/-! ## Thread lists of other processes -/

theorem switch_find_threads_other (s : State) (proc : Nat) (tid : Int)
    (alloc : malloc_result) (q : Nat) (hq : q ≠ proc) :
    ((switch_find s proc tid alloc).1.procs q).threads = (s.procs q).threads := by
  unfold switch_find
  cases (s.procs proc).threads.find? (fun td => decide ((s.heap td).tid = tid)) with
  | some td =>
    by_cases hs : (s.heap td).saved = 0
    · simp [hs]
    · simp only [hs, if_false]
      exact (sameShape_load_context s td proc).threads q
  | none =>
    cases alloc with
    | none => rfl
    | some buf => simp [new_thread, hq]

theorem switch_thread_threads_other (s : State) (proc : Nat) (tid : Int)
    (alloc : malloc_result) (q : Nat) (hq : q ≠ proc) :
    ((switch_thread s proc tid alloc).1.procs q).threads = (s.procs q).threads := by
  have hsv := (sameShape_switch_save s proc).threads q
  unfold switch_thread
  cases s.curthread with
  | none => rw [switch_find_threads_other _ proc tid alloc q hq, hsv]
  | some c =>
    by_cases hsame : (s.heap c).proc = proc ∧ (s.heap c).tid = tid
    · simp [hsame]
    · simp only [hsame, if_false]
      rw [switch_find_threads_other _ proc tid alloc q hq, hsv]

theorem fetch_regs_saved (s : State) (c : Nat) (getregs : Option reg) (a : Nat) :
    ((fetch_regs s c getregs).heap a).saved = (s.heap a).saved := by
  cases getregs <;> by_cases h : a = c <;> simp [fetch_regs, setThread, h]

theorem fetch_regs_curthread (s : State) (c : Nat) (getregs : Option reg) :
    (fetch_regs s c getregs).curthread = s.curthread := by
  cases getregs <;> rfl

/-! ## Several traced processes entered regularly -/

theorem save_context_saved_other (s : State) (c proc a : Nat) (h : a ≠ c) :
    (save_context s c proc).heap a = s.heap a := by
  simp [save_context, setThread, h]

theorem save_context_saved_self (s : State) (c proc : Nat) :
    ((save_context s c proc).heap c).saved = 1 := by
  simp [save_context, setThread]

/-- After the save phase of a regular call the memory is tidy and no context of `p` other than the one of `tid` is unsaved. -/
theorem Tidy_switch_save {s : State} (ht : Tidy s) {p : Nat} {tid : Int}
    (hreg : Regular s p tid) :
    Tidy (switch_save s p) ∧
    ∀ a, a ∈ ((switch_save s p).procs p).threads → ((switch_save s p).heap a).saved = 0 →
      ((switch_save s p).heap a).tid = tid := by
  have hsh := sameShape_switch_save s p
  cases hcur : s.curthread with
  | none =>
    have e : switch_save s p = s := by unfold switch_save; rw [hcur]
    rw [e]
    refine ⟨ht, ?_⟩
    rcases hreg with ⟨c, hc, -⟩ | h
    · rw [hcur] at hc; cases hc
    · exact h
  | some c =>
    by_cases hp : (s.heap c).proc = p
    · have e : switch_save s p = save_context s c p := by
        unfold switch_save; rw [hcur]; simp [hp]
      rw [e]
      have hsaved : ∀ a, a ∈ (s.procs p).threads → ((save_context s c p).heap a).saved ≠ 0 := by
        intro a ha h0
        by_cases hac : a = c
        · subst hac; rw [save_context_saved_self] at h0; cases h0
        · rw [save_context_saved_other s c p a hac] at h0
          exact hac (ht.own c a hcur (by rw [hp]; exact ha) h0)
      have hflag : ∀ a, ((save_context s c p).heap a).saved = 0 → (s.heap a).saved = 0 := by
        intro a h0
        by_cases hac : a = c
        · subst hac; rw [save_context_saved_self] at h0; cases h0
        · rwa [save_context_saved_other s c p a hac] at h0
      have hproc : ((save_context s c p).heap c).proc = p := by
        rw [(sameShape_save_context s c p).proc]; exact hp
      refine ⟨⟨fun q a b ha hb h0a h0b => ?_, fun d a hd ha h0 => ?_⟩, fun a ha h0 => ?_⟩
      · exact ht.one q a b ha hb (hflag a h0a) (hflag b h0b)
      · have hdc : d = c := (Option.some.inj (hcur.symm.trans hd)).symm
        subst hdc
        rw [hproc] at ha
        exact absurd h0 (hsaved a ha)
      · exact absurd h0 (hsaved a ha)
    · have e : switch_save s p = s := by
        unfold switch_save; rw [hcur]; simp [hp]
      rw [e]
      refine ⟨ht, ?_⟩
      rcases hreg with ⟨d, hd, hdp⟩ | h
      · rw [hcur] at hd
        have := Option.some.inj hd
        subst this
        exact absurd hdp hp
      · exact h

/-- The search phase keeps a tidy memory tidy when no context of `proc` other
than the one of `tid` is unsaved. -/
theorem Tidy_switch_find {s : State} (hwf : WF s) (ht : Tidy s) (proc : Nat) (tid : Int)
    (alloc : malloc_result)
    (hP : ∀ a, a ∈ (s.procs proc).threads → (s.heap a).saved = 0 → (s.heap a).tid = tid) :
    Tidy { (switch_find s proc tid alloc).1 with
      curthread := (switch_find s proc tid alloc).2 } := by
  unfold switch_find
  cases hf : (s.procs proc).threads.find? (fun td => decide ((s.heap td).tid = tid)) with
  | some td =>
    obtain ⟨hm, htid⟩ := find_tid_some hf
    have ho := hwf.owner proc td hm
    have huniq : ∀ a, a ∈ (s.procs proc).threads → (s.heap a).saved = 0 → a = td :=
      fun a ha h0 =>
        List.inj_on_of_nodup_map (hwf.uniq proc) ha hm ((hP a ha h0).trans htid.symm)
    by_cases hs : (s.heap td).saved = 0
    · simp only [hs, if_true]
      refine ⟨ht.one, fun c a hc ha h0 => ?_⟩
      have hc' : td = c := Option.some.inj hc
      subst hc'
      rw [ho] at ha
      exact huniq a ha h0
    · simp only [hs, if_false]
      have hthr := (sameShape_load_context s td proc).threads
      refine ⟨fun q a b ha hb h0a h0b => ?_, fun c a hc ha h0 => ?_⟩
      · rw [hthr] at ha hb
        exact ht.one q a b ha hb h0a h0b
      · have hc' : td = c := Option.some.inj hc
        subst hc'
        have ha' : a ∈ (s.procs proc).threads := by
          have : a ∈ ((load_context s td proc).procs ((s.heap td).proc)).threads := ha
          rw [hthr, ho] at this
          exact this
        have h0' : (s.heap a).saved = 0 := h0
        have := huniq a ha' h0'
        subst this
        exact absurd h0' hs
  | none =>
    have hn := find_tid_none hf
    have hnone : ∀ a, a ∈ (s.procs proc).threads → (s.heap a).saved ≠ 0 :=
      fun a ha h0 => hn a ha (hP a ha h0)
    cases alloc with
    | none => exact ⟨ht.one, ht.own⟩
    | some buf =>
      have hold : ∀ q a, a ∈ (s.procs q).threads → a ≠ s.brk :=
        fun q a ha => Nat.ne_of_lt (hwf.fresh q a ha)
      have hmem : ∀ a, a ∈ ((new_thread s proc tid buf).procs proc).threads →
          ((new_thread s proc tid buf).heap a).saved = 0 → a = s.brk := by
        intro a ha h0
        simp only [new_thread, if_true, List.mem_cons] at ha
        rcases ha with ha | ha
        · exact ha
        · have hne := hold proc a ha
          simp only [new_thread, hne, if_false] at h0
          exact absurd h0 (hnone a ha)
      refine ⟨fun q a b ha hb h0a h0b => ?_, fun c a hc ha h0 => ?_⟩
      · by_cases hq : q = proc
        · subst hq
          exact (hmem a ha h0a).trans (hmem b hb h0b).symm
        · simp only [new_thread, if_neg hq] at ha hb
          have hna := hold q a ha
          have hnb := hold q b hb
          simp only [new_thread, hna, if_false] at h0a
          simp only [new_thread, hnb, if_false] at h0b
          exact ht.one q a b ha hb h0a h0b
      · have hc' : s.brk = c := Option.some.inj hc
        subst hc'
        have hp : ((new_thread s proc tid buf).heap s.brk).proc = proc := by
          simp [new_thread]
        have ha' : a ∈ ((new_thread s proc tid buf).procs proc).threads := by
          have : a ∈ ((new_thread s proc tid buf).procs
              (((new_thread s proc tid buf).heap s.brk).proc)).threads := ha
          rwa [hp] at this
        exact hmem a ha' h0

theorem Tidy_activate {s : State} (hwf : WF s) (ht : Tidy s) {p : Nat} {tid : Int}
    (hreg : Regular s p tid) (alloc : malloc_result) : Tidy (activate s p tid alloc) := by
  show Tidy { (switch_thread s p tid alloc).1 with curthread := (switch_thread s p tid alloc).2 }
  by_cases hfast : ∃ c, s.curthread = some c ∧ (s.heap c).proc = p ∧ (s.heap c).tid = tid
  · obtain ⟨c, hc, hsame⟩ := hfast
    have e : switch_thread s p tid alloc = (s, some c) := by
      unfold switch_thread; rw [hc]; simp [hsame]
    rw [e]
    refine ⟨ht.one, fun d a hd ha h0 => ?_⟩
    exact ht.own d a (hc.trans hd) ha h0
  · have hslow : ∀ c, s.curthread = some c → ¬ ((s.heap c).proc = p ∧ (s.heap c).tid = tid) :=
      fun c hc hsame => hfast ⟨c, hc, hsame⟩
    have e : switch_thread s p tid alloc = switch_find (switch_save s p) p tid alloc := by
      unfold switch_thread
      cases hcur : s.curthread with
      | none => rfl
      | some c => simp [hslow c hcur]
    rw [e]
    obtain ⟨hts, hP⟩ := Tidy_switch_save ht hreg
    exact Tidy_switch_find (WF_switch_save hwf p) hts p tid alloc hP

/-- Tidiness moves to a memory with the same thread lists, `saved` flags,
owners and `curthread`. -/
theorem Tidy.of_same_flags {s s' : State} (ht : Tidy s)
    (hthr : ∀ q, (s'.procs q).threads = (s.procs q).threads)
    (hsv : ∀ a, (s'.heap a).saved = (s.heap a).saved)
    (hpr : ∀ a, (s'.heap a).proc = (s.heap a).proc)
    (hc : s'.curthread = s.curthread) : Tidy s' := by
  refine ⟨fun q a b ha hb h0a h0b => ?_, fun c a hcur ha h0 => ?_⟩
  · rw [hthr] at ha hb; rw [hsv] at h0a h0b
    exact ht.one q a b ha hb h0a h0b
  · rw [hthr, hpr] at ha; rw [hsv] at h0; rw [hc] at hcur
    exact ht.own c a hcur ha h0

theorem Tidy_get_arch_dep {K : Env} {s s' : State} (hwf : WF s) (ht : Tidy s) {p : Nat}
    {info : ptrace_lwpinfo} {alloc : malloc_result} {getregs : Option reg}
    (hreg : Regular s p info.pl_lwpid)
    (hg : get_arch_dep K s p (.ok info) alloc getregs = some s') : Tidy s' := by
  unfold get_arch_dep at hg
  simp only at hg
  have hsh1 := sameShape_setProc s p { s.procs p with lwpinfo := info } rfl
  have h1 : WF (setProc s p { s.procs p with lwpinfo := info }) :=
    hwf.of_sameShape hsh1 (fun c hc => hwf.cur c hc)
  have ht1 : Tidy (setProc s p { s.procs p with lwpinfo := info }) :=
    ht.of_same_flags hsh1.threads (fun _ => rfl) (fun _ => rfl) rfl
  have hreg1 : Regular (setProc s p { s.procs p with lwpinfo := info }) p info.pl_lwpid := by
    rcases hreg with h | h
    · exact Or.inl h
    · refine Or.inr (fun a ha h0 => h a ?_ h0)
      rw [hsh1.threads] at ha; exact ha
  have ht2 := Tidy_activate h1 ht1 hreg1 alloc
  cases hc : (activate (setProc s p { s.procs p with lwpinfo := info }) p
      info.pl_lwpid alloc).curthread with
  | none => rw [hc] at hg; simp at hg
  | some c =>
    rw [hc] at hg
    simp only [Option.some.injEq] at hg
    subst hg
    have hshf := sameShape_fetch_regs (activate (setProc s p { s.procs p with lwpinfo := info })
      p info.pl_lwpid alloc) c getregs
    have ht3 := ht2.of_same_flags hshf.threads (fetch_regs_saved _ c getregs) hshf.proc
      (fetch_regs_curthread _ c getregs)
    exact ht3.of_same_flags (sameShape_setProc _ p _ (set_mode_threads K _)).threads
      (fun _ => rfl) (fun _ => rfl) rfl

theorem ReachableRegular.well_formed {K : Env} {s : State} (h : ReachableRegular K s) : WF s := by
  induction h with
  | init s hc ht =>
    refine ⟨fun p a ha => ?_, fun p a ha => ?_, fun p => ?_, fun c hcur => ?_⟩
    · rw [ht p] at ha; cases ha
    · rw [ht p] at ha; cases ha
    · rw [ht p]; exact List.nodup_nil
    · rw [hc] at hcur; cases hcur
  | switch s p tid alloc _ _ ih => exact WF_activate ih p tid alloc
  | probe s s' p info alloc getregs _ _ hg ih => exact WF_get_arch_dep ih hg
  | edit s p depth cs eh _ ih => exact WF_set_callstack ih p depth cs eh

theorem ReachableRegular.tidy {K : Env} {s : State} (h : ReachableRegular K s) : Tidy s := by
  induction h with
  | init s hc ht =>
    refine ⟨fun p a b ha _ _ _ => ?_, fun c a hcur _ _ => ?_⟩
    · rw [ht p] at ha; cases ha
    · rw [hc] at hcur; cases hcur
  | switch s p tid alloc hreg hr ih => exact Tidy_activate hr.well_formed ih hreg alloc
  | probe s s' p info alloc getregs hreg hr hg ih => exact Tidy_get_arch_dep hr.well_formed ih hreg hg
  | edit s p depth cs eh _ ih =>
    exact ih.of_same_flags (sameShape_set_callstack s p depth cs eh).threads (fun _ => rfl)
      (fun _ => rfl) rfl

/-- A duplicate-free list whose members are all equal has at most one
member. -/
theorem length_le_one_of_pairwise_eq {l : List Nat} (hn : l.Nodup)
    (hx : ∀ a b, a ∈ l → b ∈ l → a = b) : l.length ≤ 1 := by
  match l, hn, hx with
  | [], _, _ => simp
  | [_], _, _ => simp
  | a :: b :: t, hn, hx =>
    exfalso
    have hab : a = b := hx a b (by simp) (by simp)
    have := (List.nodup_cons.mp hn).1
    exact this (by simp [hab])

/-- Over any number of traced processes, as long as every call enters its
process regularly (`curthread` belongs to the process, or the process has no
unsaved context other than the requested thread), each process has at most
one context whose `saved` flag is 0. -/
theorem unsaved_le_one_of_regular (K : Env) (s : State) (hr : ReachableRegular K s)
    (p : Nat) : (unsaved s p).length ≤ 1 := by
  apply length_le_one_of_pairwise_eq
  · exact ((hr.well_formed.uniq p).of_map _).filter _
  · intro a b ha hb
    unfold unsaved at ha hb
    rw [List.mem_filter] at ha hb
    exact hr.tidy.one p a b ha.1 hb.1 (by simpa using ha.2) (by simpa using hb.2)

/-- A regular run over two processes: thread 1 of process 0, thread 1 of
process 1, and process 0 again through its thread 1, which is its one unsaved
context. -/
theorem regular_two_processes :
    ReachableRegular freebsd_amd64 ex_reenter ∧ unsaved ex_reenter 0 = [0] ∧
    unsaved ex_reenter 1 = [1] :=
  ⟨.switch _ _ _ _ (Or.inr (by decide))
    (.switch _ _ _ _ (Or.inr (by decide))
      (.switch _ _ _ _ (Or.inr (by decide)) (.init ex_init rfl (fun _ => rfl)))),
   by decide, by decide⟩

/-- C5, the code on two traced processes.  Thread 1 of process 0 is activated,
then thread 1 of process 1, then thread 2 of process 0, `malloc` succeeding
each time.  When the last call is made `curthread` belongs to process 1 (the
call is not regular), so line 51 skips the save of thread 1 of process 0, and
process 0 ends with two contexts whose `saved` flag is 0: those of its
threads 2 and 1. -/
theorem C5_two_unsaved :
    Reachable freebsd_amd64 ex_cross ∧
    ex_two.curthread = some 1 ∧ (ex_two.heap 1).proc = 1 ∧ ¬ Regular ex_two 0 2 ∧
    ex_cross = activate ex_two 0 2 (some (some ex_buf)) ∧
    unsaved ex_cross 0 = [2, 0] ∧
    (unsaved ex_cross 0).map (fun a => (ex_cross.heap a).tid) = [2, 1] ∧
    ¬ (unsaved ex_cross 0).length ≤ 1 := by
  refine ⟨.switch _ _ _ _ (by simp) (.switch _ _ _ _ (by simp) (.switch _ _ _ _ (by simp)
    (.init ex_init rfl (fun _ => rfl)))), rfl, rfl, ?_, rfl, by decide, by decide, by decide⟩
  rintro (⟨c, hc, hp⟩ | h)
  · have hc1 : c = 1 := (Option.some.inj (show some 1 = some c from hc)).symm
    subst hc1
    exact absurd hp (by decide)
  · exact absurd (h 0 (by decide) rfl) (by decide)

/-! ## The stop classifier: claims C8 to C10 -/

theorem syscall_p_not_trap {K : Env} {s : State} {proc : Nat} {status : Int}
    (htrap : ¬ (K.WIFSTOPPED status = true ∧ K.WSTOPSIG status = K.SIGTRAP)) :
    syscall_p K s proc status = some ⟨0, none⟩ := by
  unfold syscall_p
  rw [if_neg htrap]

theorem syscall_p_entry {K : Env} {s : State} {proc : Nat} {status : Int}
    (htrap : K.WIFSTOPPED status = true ∧ K.WSTOPSIG status = K.SIGTRAP)
    (hsce : ¬ (s.procs proc).lwpinfo.pl_flags &&& K.PL_FLAG_SCE = 0) :
    syscall_p K s proc status =
      match s.curthread with
      | none => none
      | some c => some ⟨1, some (toCInt (return_register K (s.heap c).regs))⟩ := by
  unfold syscall_p
  rw [if_pos htrap]
  dsimp only
  rw [if_pos hsce]

theorem syscall_p_exit {K : Env} {s : State} {proc : Nat} {status : Int}
    (htrap : K.WIFSTOPPED status = true ∧ K.WSTOPSIG status = K.SIGTRAP)
    (hsce : (s.procs proc).lwpinfo.pl_flags &&& K.PL_FLAG_SCE = 0)
    (hscx : ¬ (s.procs proc).lwpinfo.pl_flags &&& K.PL_FLAG_SCX = 0) :
    syscall_p K s proc status =
      if (s.procs proc).callstack_depth > 0 ∧
          ((s.procs proc).callstack ((s.procs proc).callstack_depth - 1)).is_syscall ≠ 0 then
        some ⟨2, some
          ((s.procs proc).callstack ((s.procs proc).callstack_depth - 1)).c_un_syscall⟩
      else some ⟨2, some (-1)⟩ := by
  unfold syscall_p
  rw [if_pos htrap]
  dsimp only
  rw [if_neg (not_not.mpr hsce), if_pos hscx]
  by_cases hd : (s.procs proc).callstack_depth > 0
  · by_cases hsys :
        ((s.procs proc).callstack ((s.procs proc).callstack_depth - 1)).is_syscall = 0
    · simp [hd, hsys]
    · simp [hd, hsys]
  · simp [hd]

theorem syscall_p_neither {K : Env} {s : State} {proc : Nat} {status : Int}
    (htrap : K.WIFSTOPPED status = true ∧ K.WSTOPSIG status = K.SIGTRAP)
    (hsce : (s.procs proc).lwpinfo.pl_flags &&& K.PL_FLAG_SCE = 0)
    (hscx : (s.procs proc).lwpinfo.pl_flags &&& K.PL_FLAG_SCX = 0) :
    syscall_p K s proc status = some ⟨0, none⟩ := by
  unfold syscall_p
  rw [if_pos htrap]
  dsimp only
  rw [if_neg (not_not.mpr hsce), if_neg (not_not.mpr hscx)]

theorem toCInt_of_fits (v : Int) (hlo : -2147483648 ≤ v) (hhi : v ≤ 2147483647) :
    toCInt v = v := by
  unfold toCInt
  omega

/-- C8 (syscall entry).  On a SIGTRAP stop with `PL_FLAG_SCE` set in
`pl_flags` and `curthread` not NULL, `syscall_p` returns 1 and writes to
`*sysnum` the return-value register of the snapshot of `curthread` (`r_rax` in
an x86_64 build, `r_eax` otherwise) converted to `int`; the written value is
the register value itself whenever that value fits in an `int`. -/
theorem C8_syscall_entry (K : Env) (s : State) (proc : Nat) (status : Int) (c : Nat)
    (hstop : K.WIFSTOPPED status = true) (hsig : K.WSTOPSIG status = K.SIGTRAP)
    (hsce : (s.procs proc).lwpinfo.pl_flags &&& K.PL_FLAG_SCE ≠ 0)
    (hc : s.curthread = some c) :
    syscall_p K s proc status
      = some ⟨1, some (toCInt (return_register K (s.heap c).regs))⟩ ∧
    return_register K (s.heap c).regs
      = (if K.x86_64 then (s.heap c).regs.r_rax else (s.heap c).regs.r_eax) ∧
    (-2147483648 ≤ return_register K (s.heap c).regs →
      return_register K (s.heap c).regs ≤ 2147483647 →
      syscall_p K s proc status = some ⟨1, some (return_register K (s.heap c).regs)⟩) := by
  have h1 : syscall_p K s proc status
      = some ⟨1, some (toCInt (return_register K (s.heap c).regs))⟩ := by
    unfold syscall_p
    simp [hstop, hsig, hsce, hc]
  refine ⟨h1, rfl, fun hlo hhi => ?_⟩
  rw [h1, toCInt_of_fits _ hlo hhi]

/-- Witness for C8: the stop status `0x057f` (stopped by SIGTRAP) at the
entry of syscall 59. -/
theorem C8_syscall_entry_witness :
    (freebsd_amd64.WIFSTOPPED 1407 = true ∧ freebsd_amd64.WSTOPSIG 1407 = freebsd_amd64.SIGTRAP ∧
      (ex_entry.procs 0).lwpinfo.pl_flags &&& freebsd_amd64.PL_FLAG_SCE ≠ 0 ∧
      ex_entry.curthread = some 0) ∧
    (syscall_p freebsd_amd64 ex_entry 0 1407
      = some ⟨1, some (toCInt (return_register freebsd_amd64 (ex_entry.heap 0).regs))⟩ ∧
    return_register freebsd_amd64 (ex_entry.heap 0).regs
      = (if freebsd_amd64.x86_64 then (ex_entry.heap 0).regs.r_rax
         else (ex_entry.heap 0).regs.r_eax) ∧
    (-2147483648 ≤ return_register freebsd_amd64 (ex_entry.heap 0).regs →
      return_register freebsd_amd64 (ex_entry.heap 0).regs ≤ 2147483647 →
      syscall_p freebsd_amd64 ex_entry 0 1407
        = some ⟨1, some (return_register freebsd_amd64 (ex_entry.heap 0).regs)⟩)) :=
  ⟨⟨by decide, by decide, by decide, rfl⟩,
   C8_syscall_entry freebsd_amd64 ex_entry 0 1407 0 (by decide) (by decide) (by decide) rfl⟩

/-- C9 (syscall exit).  On a SIGTRAP stop with `PL_FLAG_SCX` set and
`PL_FLAG_SCE` not set, `syscall_p` returns 2; it writes the number recorded in
the top frame when the depth is positive and that frame has `is_syscall` set,
and it writes -1 when the depth is 0 or the top frame is not a syscall
frame. -/
theorem C9_syscall_exit (K : Env) (s : State) (proc : Nat) (status : Int)
    (hstop : K.WIFSTOPPED status = true) (hsig : K.WSTOPSIG status = K.SIGTRAP)
    (hscx : (s.procs proc).lwpinfo.pl_flags &&& K.PL_FLAG_SCX ≠ 0)
    (hsce : (s.procs proc).lwpinfo.pl_flags &&& K.PL_FLAG_SCE = 0) :
    ((s.procs proc).callstack_depth > 0 →
      ((s.procs proc).callstack ((s.procs proc).callstack_depth - 1)).is_syscall ≠ 0 →
      syscall_p K s proc status = some ⟨2, some
        ((s.procs proc).callstack ((s.procs proc).callstack_depth - 1)).c_un_syscall⟩) ∧
    ((s.procs proc).callstack_depth = 0 ∨
      ((s.procs proc).callstack ((s.procs proc).callstack_depth - 1)).is_syscall = 0 →
      syscall_p K s proc status = some ⟨2, some (-1)⟩) := by
  refine ⟨fun hd hsys => ?_, fun h => ?_⟩
  · unfold syscall_p
    simp [hstop, hsig, hsce, hscx, hd, hsys]
  · unfold syscall_p
    by_cases hd : (s.procs proc).callstack_depth > 0
    · have hsys : ((s.procs proc).callstack ((s.procs proc).callstack_depth - 1)).is_syscall = 0 := by
        rcases h with h | h
        · omega
        · exact h
      simp [hstop, hsig, hsce, hscx, hd, hsys]
    · simp [hstop, hsig, hsce, hscx, hd]

/-- Witness for C9: the exit stop with `[lib-call, syscall#5]` on the call
stack. -/
theorem C9_syscall_exit_witness :
    (freebsd_amd64.WIFSTOPPED 1407 = true ∧ freebsd_amd64.WSTOPSIG 1407 = freebsd_amd64.SIGTRAP ∧
      (ex_exit.procs 0).lwpinfo.pl_flags &&& freebsd_amd64.PL_FLAG_SCX ≠ 0 ∧
      (ex_exit.procs 0).lwpinfo.pl_flags &&& freebsd_amd64.PL_FLAG_SCE = 0) ∧
    (((ex_exit.procs 0).callstack_depth > 0 →
      ((ex_exit.procs 0).callstack ((ex_exit.procs 0).callstack_depth - 1)).is_syscall ≠ 0 →
      syscall_p freebsd_amd64 ex_exit 0 1407 = some ⟨2, some
        ((ex_exit.procs 0).callstack ((ex_exit.procs 0).callstack_depth - 1)).c_un_syscall⟩) ∧
    ((ex_exit.procs 0).callstack_depth = 0 ∨
      ((ex_exit.procs 0).callstack ((ex_exit.procs 0).callstack_depth - 1)).is_syscall = 0 →
      syscall_p freebsd_amd64 ex_exit 0 1407 = some ⟨2, some (-1)⟩)) :=
  ⟨⟨by decide, by decide, by decide, by decide⟩,
   C9_syscall_exit freebsd_amd64 ex_exit 0 1407 (by decide) (by decide) (by decide) (by decide)⟩

/-- C10 (no-syscall result).  `syscall_p` returns 0 without writing `*sysnum`
exactly when the status is not a SIGTRAP stop (whatever `pl_flags` holds) or
it is a SIGTRAP stop with neither `PL_FLAG_SCE` nor `PL_FLAG_SCX` set; and
whenever it returns 0 it has written nothing. -/
theorem C10_no_syscall (K : Env) (s : State) (proc : Nat) (status : Int) :
    (syscall_p K s proc status = some ⟨0, none⟩ ↔
      (¬ (K.WIFSTOPPED status = true ∧ K.WSTOPSIG status = K.SIGTRAP) ∨
       ((K.WIFSTOPPED status = true ∧ K.WSTOPSIG status = K.SIGTRAP) ∧
        (s.procs proc).lwpinfo.pl_flags &&& K.PL_FLAG_SCE = 0 ∧
        (s.procs proc).lwpinfo.pl_flags &&& K.PL_FLAG_SCX = 0))) ∧
    (∀ r, syscall_p K s proc status = some r → r.ret = 0 → r.sysnum = none) := by
  by_cases htrap : K.WIFSTOPPED status = true ∧ K.WSTOPSIG status = K.SIGTRAP
  · by_cases hsce : (s.procs proc).lwpinfo.pl_flags &&& K.PL_FLAG_SCE = 0
    · by_cases hscx : (s.procs proc).lwpinfo.pl_flags &&& K.PL_FLAG_SCX = 0
      · rw [syscall_p_neither htrap hsce hscx]
        refine ⟨⟨fun _ => Or.inr ⟨htrap, hsce, hscx⟩, fun _ => rfl⟩, ?_⟩
        intro r hr _
        rw [← Option.some.inj hr]
      · rw [syscall_p_exit htrap hsce hscx]
        constructor
        · constructor
          · intro h
            split at h <;> simp at h
          · rintro (h | ⟨-, -, h⟩)
            · exact absurd htrap h
            · exact absurd h hscx
        · intro r hr h0
          split at hr <;>
          · rw [← Option.some.inj hr] at h0
            simp at h0
    · rw [syscall_p_entry htrap hsce]
      constructor
      · constructor
        · intro h
          cases hc : s.curthread <;> rw [hc] at h <;> simp at h
        · rintro (h | ⟨-, h, -⟩)
          · exact absurd htrap h
          · exact absurd h hsce
      · intro r hr h0
        cases hc : s.curthread with
        | none => rw [hc] at hr; simp at hr
        | some c =>
          rw [hc] at hr
          rw [← Option.some.inj hr] at h0
          simp at h0
  · rw [syscall_p_not_trap htrap]
    refine ⟨⟨fun _ => Or.inl htrap, fun _ => rfl⟩, ?_⟩
    intro r hr _
    rw [← Option.some.inj hr]

/-! ## The type layout table: claims C11 to C13 and C19 -/

theorem size_t_cast_neg2_amd64 : size_t_cast freebsd_amd64 (-2) = 18446744073709551614 := by
  decide

theorem size_t_cast_neg2_i386 : size_t_cast freebsd_i386 (-2) = 4294967294 := by
  decide

/-- C11 (size table).  For a non-NULL process, `arch_type_sizeof` returns 0
for void, 1 for char, 2 for short and ushort, 4 for int and uint, 4 for float,
8 for double, `(size_t)-2` for array and struct, and for long, ulong and
pointer 8 when `e_machine` is `EM_X86_64` and 4 for any other `e_machine`. -/
theorem C11_size_table (K : Env) (s : State) (p : Nat) :
    arch_type_sizeof K s (some p) ⟨.ARGTYPE_VOID⟩ = some 0 ∧
    arch_type_sizeof K s (some p) ⟨.ARGTYPE_CHAR⟩ = some 1 ∧
    arch_type_sizeof K s (some p) ⟨.ARGTYPE_SHORT⟩ = some 2 ∧
    arch_type_sizeof K s (some p) ⟨.ARGTYPE_USHORT⟩ = some 2 ∧
    arch_type_sizeof K s (some p) ⟨.ARGTYPE_INT⟩ = some 4 ∧
    arch_type_sizeof K s (some p) ⟨.ARGTYPE_UINT⟩ = some 4 ∧
    arch_type_sizeof K s (some p) ⟨.ARGTYPE_FLOAT⟩ = some 4 ∧
    arch_type_sizeof K s (some p) ⟨.ARGTYPE_DOUBLE⟩ = some 8 ∧
    arch_type_sizeof K s (some p) ⟨.ARGTYPE_ARRAY⟩ = some (size_t_cast K (-2)) ∧
    arch_type_sizeof K s (some p) ⟨.ARGTYPE_STRUCT⟩ = some (size_t_cast K (-2)) ∧
    arch_type_sizeof K s (some p) ⟨.ARGTYPE_LONG⟩
      = some (if (s.procs p).e_machine = K.EM_X86_64 then 8 else 4) ∧
    arch_type_sizeof K s (some p) ⟨.ARGTYPE_ULONG⟩
      = some (if (s.procs p).e_machine = K.EM_X86_64 then 8 else 4) ∧
    arch_type_sizeof K s (some p) ⟨.ARGTYPE_POINTER⟩
      = some (if (s.procs p).e_machine = K.EM_X86_64 then 8 else 4) :=
  ⟨rfl, rfl, rfl, rfl, rfl, rfl, rfl, rfl, rfl, rfl, rfl, rfl, rfl⟩

/-- For a kind other than void and double the alignment is the size. -/
theorem alignof_eq_sizeof_of_ne_double (K : Env) (s : State) (p : Nat) (k : arg_type)
    (hv : k ≠ .ARGTYPE_VOID) (hd : k ≠ .ARGTYPE_DOUBLE) :
    arch_type_alignof K s (some p) ⟨k⟩ = arch_type_sizeof K s (some p) ⟨k⟩ := by
  cases k <;> first | rfl | exact absurd rfl hv | exact absurd rfl hd

/-- C12 (alignment table).  For a non-NULL process, `arch_type_alignof`
returns 1 for char, 2 for short and ushort, 4 for int and uint, 4 for float,
`(size_t)-2` for array and struct, and for long, ulong, pointer and double 8
when `e_machine` is `EM_X86_64` and 4 otherwise.  Hence the alignment of a
kind other than void equals its size, except for double: there the two agree
(both 8) when `e_machine` is `EM_X86_64`, and otherwise the size is 8 and the
alignment 4. -/
theorem C12_align_table (K : Env) (s : State) (p : Nat) :
    arch_type_alignof K s (some p) ⟨.ARGTYPE_CHAR⟩ = some 1 ∧
    arch_type_alignof K s (some p) ⟨.ARGTYPE_SHORT⟩ = some 2 ∧
    arch_type_alignof K s (some p) ⟨.ARGTYPE_USHORT⟩ = some 2 ∧
    arch_type_alignof K s (some p) ⟨.ARGTYPE_INT⟩ = some 4 ∧
    arch_type_alignof K s (some p) ⟨.ARGTYPE_UINT⟩ = some 4 ∧
    arch_type_alignof K s (some p) ⟨.ARGTYPE_FLOAT⟩ = some 4 ∧
    arch_type_alignof K s (some p) ⟨.ARGTYPE_ARRAY⟩ = some (size_t_cast K (-2)) ∧
    arch_type_alignof K s (some p) ⟨.ARGTYPE_STRUCT⟩ = some (size_t_cast K (-2)) ∧
    arch_type_alignof K s (some p) ⟨.ARGTYPE_LONG⟩
      = some (if (s.procs p).e_machine = K.EM_X86_64 then 8 else 4) ∧
    arch_type_alignof K s (some p) ⟨.ARGTYPE_ULONG⟩
      = some (if (s.procs p).e_machine = K.EM_X86_64 then 8 else 4) ∧
    arch_type_alignof K s (some p) ⟨.ARGTYPE_POINTER⟩
      = some (if (s.procs p).e_machine = K.EM_X86_64 then 8 else 4) ∧
    arch_type_alignof K s (some p) ⟨.ARGTYPE_DOUBLE⟩
      = some (if (s.procs p).e_machine = K.EM_X86_64 then 8 else 4) ∧
    (∀ k : arg_type, k ≠ .ARGTYPE_VOID → k ≠ .ARGTYPE_DOUBLE →
      arch_type_alignof K s (some p) ⟨k⟩ = arch_type_sizeof K s (some p) ⟨k⟩) ∧
    ((s.procs p).e_machine = K.EM_X86_64 →
      arch_type_alignof K s (some p) ⟨.ARGTYPE_DOUBLE⟩
        = arch_type_sizeof K s (some p) ⟨.ARGTYPE_DOUBLE⟩) ∧
    ((s.procs p).e_machine ≠ K.EM_X86_64 →
      arch_type_sizeof K s (some p) ⟨.ARGTYPE_DOUBLE⟩ = some 8 ∧
      arch_type_alignof K s (some p) ⟨.ARGTYPE_DOUBLE⟩ = some 4) := by
  refine ⟨rfl, rfl, rfl, rfl, rfl, rfl, rfl, rfl, rfl, rfl, rfl, rfl,
    alignof_eq_sizeof_of_ne_double K s p, fun he => ?_, fun he => ⟨rfl, ?_⟩⟩
  · simp [arch_type_alignof, arch_type_sizeof, he]
  · simp [arch_type_alignof, he]

/-- C13 (absent process).  With a NULL process pointer both functions return
`(size_t)-2` for every type info, the void kind and values outside the
enumeration included: the `abort()` branch is not reached. -/
theorem C13_null_process (K : Env) (s : State) (info : arg_type_info) :
    arch_type_sizeof K s none info = some (size_t_cast K (-2)) ∧
    arch_type_alignof K s none info = some (size_t_cast K (-2)) ∧
    arch_type_sizeof K s none info ≠ none ∧ arch_type_alignof K s none info ≠ none :=
  ⟨rfl, rfl, by simp [arch_type_sizeof], by simp [arch_type_alignof]⟩

/-- C19 (abort condition).  For a non-NULL process, `arch_type_sizeof` reaches
`abort()` exactly when the kind is none of the thirteen enumerators, and
`arch_type_alignof` exactly when the kind is void or none of the thirteen; so
for the void kind `arch_type_alignof` aborts while `arch_type_sizeof` returns
0. -/
theorem C19_abort_condition (K : Env) (s : State) (p : Nat) (info : arg_type_info) :
    (arch_type_sizeof K s (some p) info = none ↔ ∃ v, info.type = .other v) ∧
    (arch_type_alignof K s (some p) info = none ↔
      (info.type = .ARGTYPE_VOID ∨ ∃ v, info.type = .other v)) ∧
    arch_type_alignof K s (some p) ⟨.ARGTYPE_VOID⟩ = none ∧
    arch_type_sizeof K s (some p) ⟨.ARGTYPE_VOID⟩ = some 0 := by
  obtain ⟨k⟩ := info
  refine ⟨?_, ?_, rfl, rfl⟩
  · cases k <;> simp [arch_type_sizeof]
  · cases k <;> simp [arch_type_alignof]

/-! ## The probe: claims C14 and C17 -/

theorem switch_save_procs (s : State) (proc : Nat) : (switch_save s proc).procs = s.procs := by
  unfold switch_save
  split
  · split <;> rfl
  · rfl

/-- The only way for `switch_thread` to return NULL: `curthread` is NULL and
the `malloc` of line 81 fails. -/
theorem switch_thread_ne_null (s : State) (proc : Nat) (tid : Int)
    (alloc : malloc_result)
    (h : alloc.isSome = true ∨ s.curthread.isSome = true) :
    (switch_thread s proc tid alloc).2.isSome = true := by
  have hfind : (switch_find (switch_save s proc) proc tid alloc).2.isSome = true := by
    unfold switch_find
    cases ((switch_save s proc).procs proc).threads.find?
        (fun td => decide (((switch_save s proc).heap td).tid = tid)) with
    | some td =>
      by_cases hs : ((switch_save s proc).heap td).saved = 0 <;> simp [hs]
    | none =>
      cases alloc with
      | none => simpa using h
      | some buf => rfl
  unfold switch_thread
  cases s.curthread with
  | none => exact hfind
  | some c =>
    by_cases hsame : (s.heap c).proc = proc ∧ (s.heap c).tid = tid
    · simp [hsame]
    · simp only [hsame, if_false]; exact hfind

theorem get_arch_dep_returns (K : Env) (s : State) (p : Nat) (info : ptrace_lwpinfo)
    (alloc : malloc_result) (getregs : Option reg)
    (h : alloc.isSome = true ∨ s.curthread.isSome = true) :
    ∃ s', get_arch_dep K s p (.ok info) alloc getregs = some s' := by
  have hnn := switch_thread_ne_null (setProc s p { s.procs p with lwpinfo := info }) p
    info.pl_lwpid alloc h
  obtain ⟨c, hc⟩ := Option.isSome_iff_exists.mp hnn
  have hcur : (activate (setProc s p { s.procs p with lwpinfo := info }) p info.pl_lwpid
      alloc).curthread = some c := hc
  unfold get_arch_dep
  simp only [hcur]
  exact ⟨_, rfl⟩

/-- C17 (failed probe).  When the `PT_LWPINFO` request fails, with `ESRCH` or
with any other `errno`, `get_arch_dep` returns and the memory is what it was:
`curthread`, every process record (call stack, depth, event handler, thread
list, `mask_32bit`, `personality`) and every context. -/
theorem C17_failed_probe (K : Env) (s : State) (p : Nat) (errno : Int)
    (alloc : malloc_result) (getregs : Option reg) :
    get_arch_dep K s p (.error errno) alloc getregs = some s ∧
    get_arch_dep K s p (.error K.ESRCH) alloc getregs = some s :=
  ⟨rfl, rfl⟩

/-! ## Entry and exit flags together: claim C20 -/

/-- When `tid` is not listed by `p` and the `malloc` of line 81 fails,
`switch_thread(p, tid)` leaves every thread list and the allocation mark as
they were and returns `curthread`. -/
theorem switch_thread_malloc_fail (s : State) (p : Nat) (tid : Int)
    (hnew : ∀ a, a ∈ (s.procs p).threads → (s.heap a).tid ≠ tid) :
    (switch_thread s p tid none).2 = s.curthread ∧
    (∀ q, ((switch_thread s p tid none).1.procs q).threads = (s.procs q).threads) ∧
    (switch_thread s p tid none).1.brk = s.brk ∧
    (∀ c, s.curthread = some c → (s.heap c).proc = p →
      (switch_thread s p tid none).2 = some c ∧
      ((switch_thread s p tid none).1.heap c).proc = p) := by
  have hsh := sameShape_switch_save s p
  have hfind : switch_find (switch_save s p) p tid none = (switch_save s p, s.curthread) := by
    have hf : ((switch_save s p).procs p).threads.find?
        (fun td => decide (((switch_save s p).heap td).tid = tid)) = none := by
      rw [List.find?_eq_none]
      intro a ha
      rw [hsh.threads] at ha
      simpa [hsh.tid] using hnew a ha
    unfold switch_find
    rw [hf]
    simp
  have hall : (switch_thread s p tid none).2 = s.curthread ∧
      SameShape s (switch_thread s p tid none).1 := by
    unfold switch_thread
    cases hcur : s.curthread with
    | none => rw [hfind, hcur]; exact ⟨rfl, hsh⟩
    | some c =>
      by_cases hsame : (s.heap c).proc = p ∧ (s.heap c).tid = tid
      · dsimp only
        rw [if_pos hsame]; exact ⟨rfl, SameShape.rfl_ s⟩
      · dsimp only
        rw [if_neg hsame, hfind, hcur]; exact ⟨rfl, hsh⟩
  refine ⟨hall.1, hall.2.threads, hall.2.brk, fun c hc hp => ⟨?_, ?_⟩⟩
  · rw [hall.1, hc]
  · rw [hall.2.proc]; exact hp

/-- C16, the code when an allocation of the new-thread path fails.
First, thread 1 of process 0 is current, thread id 2 is not listed and the
`malloc` of line 91 returns NULL: the call inserts a context for thread 2,
with a NULL `callstack`, at the head of the list and returns it instead of
the context of thread 1.  Second, thread 1 of process 0 was active, `curthread`
belongs to process 1 and the `malloc` of line 81 returns NULL: the call on
process 0 returns the context of process 1.  Third, from the initial memory
the failing call returns NULL, which `get_arch_dep` dereferences on
line 107. -/
theorem C16_failure_paths :
    ((ex_active.curthread = some 0 ∧
      (∀ a ∈ (ex_active.procs 0).threads, (ex_active.heap a).tid ≠ 2)) ∧
     (switch_thread ex_active 0 2 (some none)).2 = some 1 ∧
     ((switch_thread ex_active 0 2 (some none)).1.procs 0).threads = [1, 0] ∧
     ((switch_thread ex_active 0 2 (some none)).1.heap 1).tid = 2 ∧
     ((switch_thread ex_active 0 2 (some none)).1.heap 1).callstack_null = true) ∧
    ((0 ∈ (ex_two.procs 0).threads ∧ (ex_two.heap 0).tid = 1 ∧
      (∀ a ∈ (ex_two.procs 0).threads, (ex_two.heap a).tid ≠ 2)) ∧
     (switch_thread ex_two 0 2 none).2 = some 1 ∧
     ((switch_thread ex_two 0 2 none).1.heap 1).proc = 1 ∧
     1 ∉ ((switch_thread ex_two 0 2 none).1.procs 0).threads) ∧
    ((switch_thread ex_init 0 1 none).2 = none ∧
     get_arch_dep freebsd_amd64 ex_init 0 (.ok ⟨1, 0⟩) none (some ⟨0, 0⟩) = none) :=
  ⟨⟨⟨rfl, by decide⟩, rfl, rfl, rfl, rfl⟩,
   ⟨⟨by decide, rfl, by decide⟩, rfl, rfl, by decide⟩,
   ⟨rfl, rfl⟩⟩

/-- C18, the code at a concrete restore.  Thread 1 of process 0 is listed and
marked saved with depth 2, `[lib-call, syscall#5]` and event handler 7, while
thread 2 is current with an empty stack.  `switch_thread(p, 1)` returns the
context of thread 1 and copies its depth, frames and event handler into the
process, and the `saved` flag of that context is still 1. -/
theorem C18_saved_not_cleared :
    Reachable freebsd_amd64 ex_saved ∧
    0 ∈ (ex_saved.procs 0).threads ∧ (ex_saved.heap 0).tid = 1 ∧
    (ex_saved.heap 0).saved = 1 ∧ (ex_saved.procs 0).callstack_depth = 0 ∧
    (switch_thread ex_saved 0 1 none).2 = some 0 ∧
    ((switch_thread ex_saved 0 1 none).1.procs 0).callstack_depth = 2 ∧
    ((switch_thread ex_saved 0 1 none).1.procs 0).callstack 0 = ⟨0, 0⟩ ∧
    ((switch_thread ex_saved 0 1 none).1.procs 0).callstack 1 = ⟨5, 1⟩ ∧
    ((switch_thread ex_saved 0 1 none).1.procs 0).event_handler = some 7 ∧
    ((switch_thread ex_saved 0 1 none).1.heap 0).saved = 1 :=
  ⟨.edit _ _ _ _ _ (.switch _ _ _ _ (by simp) (ex_active_reachable _)), by decide, rfl, rfl, rfl, rfl,
   rfl, rfl, rfl, rfl, rfl⟩

/-! ## Two processes: claim C15 -/

theorem switch_find_procs_other (s : State) (proc : Nat) (tid : Int)
    (alloc : malloc_result) (q : Nat) (hq : q ≠ proc) :
    (switch_find s proc tid alloc).1.procs q = s.procs q := by
  unfold switch_find
  cases (s.procs proc).threads.find? (fun td => decide ((s.heap td).tid = tid)) with
  | some td =>
    by_cases hs : (s.heap td).saved = 0
    · simp [hs]
    · simp [hs, load_context, setProc, hq]
  | none =>
    cases alloc with
    | none => rfl
    | some buf => simp [new_thread, hq]

/-- In a well-formed memory a `switch_thread` on `q` writes neither the record
of another process `p` nor a context that `p` lists. -/
theorem switch_thread_frame {s : State} (h : WF s) {p q : Nat} (hpq : p ≠ q) (tid : Int)
    (alloc : malloc_result) :
    (switch_thread s q tid alloc).1.procs p = s.procs p ∧
    ∀ a, a ∈ (s.procs p).threads → (switch_thread s q tid alloc).1.heap a = s.heap a := by
  have hsave : ∀ a, a ∈ (s.procs p).threads → (switch_save s q).heap a = s.heap a := by
    intro a ha
    unfold switch_save
    cases s.curthread with
    | none => rfl
    | some c =>
      by_cases hc : (s.heap c).proc = q
      · have hac : a ≠ c := by
          intro e
          rw [← e, h.owner p a ha] at hc
          exact hpq hc
        simp [hc, save_context, setThread, hac]
      · simp [hc]
  have hfind : (switch_find (switch_save s q) q tid alloc).1.procs p = s.procs p ∧
      ∀ a, a ∈ (s.procs p).threads →
        (switch_find (switch_save s q) q tid alloc).1.heap a = s.heap a := by
    refine ⟨by rw [switch_find_procs_other _ q tid alloc p hpq, switch_save_procs],
      fun a ha => ?_⟩
    rw [switch_find_heap _ q tid alloc a (by
      have : (switch_save s q).brk = s.brk := (sameShape_switch_save s q).brk
      rw [this]; exact Nat.ne_of_lt (h.fresh p a ha)), hsave a ha]
  unfold switch_thread
  cases s.curthread with
  | none => exact hfind
  | some c =>
    by_cases hsame : (s.heap c).proc = q ∧ (s.heap c).tid = tid
    · dsimp only
      rw [if_pos hsame]
      exact ⟨rfl, fun _ _ => rfl⟩
    · dsimp only
      rw [if_neg hsame]
      exact hfind

/-- The same for a `get_arch_dep` on `q` during which the `malloc` of line 81
succeeds. -/
theorem get_arch_dep_frame {K : Env} {s s' : State} (h : WF s) {p q : Nat} (hpq : p ≠ q)
    {lwp : lwpinfo_result} {buf : Option (Nat → callstack_element)} {getregs : Option reg}
    (hg : get_arch_dep K s q lwp (some buf) getregs = some s') :
    s'.procs p = s.procs p ∧ ∀ a, a ∈ (s.procs p).threads → s'.heap a = s.heap a := by
  cases lwp with
  | error e =>
    have : s = s' := Option.some.inj hg
    subst this
    exact ⟨rfl, fun _ _ => rfl⟩
  | ok info =>
    have h1 : WF (setProc s q { s.procs q with lwpinfo := info }) :=
      h.of_sameShape (sameShape_setProc s q _ rfl) (fun c hc => h.cur c hc)
    have hp1 : (setProc s q { s.procs q with lwpinfo := info }).procs p = s.procs p := by
      simp [setProc, hpq]
    obtain ⟨hfp, hfh0⟩ := switch_thread_frame h1 hpq info.pl_lwpid (some buf)
    rw [hp1] at hfp hfh0
    have hfh : ∀ a, a ∈ (s.procs p).threads →
        (switch_thread (setProc s q { s.procs q with lwpinfo := info }) q info.pl_lwpid
          (some buf)).1.heap a = s.heap a := hfh0
    obtain ⟨c, hres, -, hproc, -⟩ := (switch_thread_post h1 q info.pl_lwpid (some buf)).2 rfl
    have hcur : (activate (setProc s q { s.procs q with lwpinfo := info }) q info.pl_lwpid
        (some buf)).curthread = some c := hres
    unfold get_arch_dep at hg
    simp only [hcur, Option.some.injEq] at hg
    subst hg
    refine ⟨?_, fun a ha => ?_⟩
    · have : (fetch_regs (activate (setProc s q { s.procs q with lwpinfo := info }) q
          info.pl_lwpid (some buf)) c getregs).procs p = s.procs p := by
        cases getregs <;> exact hfp
      simpa [setProc, hpq] using this
    · have hac : a ≠ c := by
        intro e
        have hpa := h.owner p a ha
        rw [← e, hfh a ha, hpa] at hproc
        exact hpq hproc
      have hact : (activate (setProc s q { s.procs q with lwpinfo := info }) q info.pl_lwpid
          (some buf)).heap a = s.heap a := hfh a ha
      cases getregs <;> simpa [setProc, fetch_regs, setThread, hac] using hact

/-- A call on `q` during which the `malloc` of line 81 succeeds returns, keeps
the memory well formed and leaves another process `p` and its contexts
alone. -/
theorem step_frame {K : Env} {s : State} (h : WF s) {p q : Nat} (hpq : p ≠ q) (c : call)
    (hq : c.proc = q) (hok : c.alloc_ok = true) :
    ∃ s', step K s c = some s' ∧ WF s' ∧ s'.procs p = s.procs p ∧
      ∀ a, a ∈ (s.procs p).threads → s'.heap a = s.heap a := by
  cases c with
  | switch_thread r tid alloc =>
    have hr : r = q := hq
    subst hr
    exact ⟨_, rfl, WF_activate h r tid alloc, switch_thread_frame h hpq tid alloc⟩
  | get_arch_dep r lwp alloc getregs =>
    have hr : r = q := hq
    subst hr
    obtain ⟨buf, hb⟩ := Option.isSome_iff_exists.mp (show alloc.isSome = true from hok)
    subst hb
    have hret : ∃ s', get_arch_dep K s r lwp (some buf) getregs = some s' := by
      cases lwp with
      | error e => exact ⟨s, rfl⟩
      | ok info => exact get_arch_dep_returns K s r info (some buf) getregs (Or.inl rfl)
    obtain ⟨s', hs'⟩ := hret
    exact ⟨s', hs', WF_get_arch_dep h hs', get_arch_dep_frame h hpq hs'⟩

theorem run_frame {K : Env} {p q : Nat} (hpq : p ≠ q) (cs : List call) :
    ∀ s : State, WF s → (∀ c, c ∈ cs → c.proc = q ∧ c.alloc_ok = true) →
    ∃ s', run K s cs = some s' ∧ s'.procs p = s.procs p ∧
      ∀ a, a ∈ (s.procs p).threads → s'.heap a = s.heap a := by
  induction cs with
  | nil => intro s _ _; exact ⟨s, rfl, rfl, fun _ _ => rfl⟩
  | cons c cs ih =>
    intro s h hcs
    obtain ⟨s1, hstep, hwf1, hp1, hh1⟩ :=
      step_frame (K := K) h hpq c (hcs c (by simp)).1 (hcs c (by simp)).2
    obtain ⟨s2, hrun, hp2, hh2⟩ := ih s1 hwf1 (fun d hd => hcs d (by simp [hd]))
    refine ⟨s2, ?_, hp2.trans hp1, fun a ha => ?_⟩
    · simp only [run, hstep]; exact hrun
    · rw [hh2 a (by rw [hp1]; exact ha), hh1 a ha]

/-- From a reachable memory, any sequence of calls on a process `q` during
which the `malloc` of line 81 succeeds runs to completion and writes neither
the record of another process `p` nor a context that `p` lists. -/
theorem calls_on_other_process_frame (K : Env) (s : State) (hr : Reachable K s) (p q : Nat)
    (hpq : p ≠ q) (cs : List call) (hcs : ∀ c, c ∈ cs → c.proc = q ∧ c.alloc_ok = true) :
    ∃ s', run K s cs = some s' ∧ s'.procs p = s.procs p ∧
      ∀ a, a ∈ (s.procs p).threads → s'.heap a = s.heap a :=
  run_frame hpq cs s hr.wf hcs

/-- C15, the code on two traced processes.  From the initial memory, with the
calls on process 0 for thread 1, on process 1 for thread 1 and on process 0
for thread 2, the context of thread 1 of process 0 ends with `saved` 0; with
the call on process 1 removed it ends with `saved` 1.  From the memory in
which thread 1 of process 0 is active with `[lib-call, syscall#5]`, the call
on process 1 followed by the call on process 0 for thread 2 leaves the context
of thread 1 unsaved with depth 0; with the call on process 1 removed that
context is saved with depth 2.  (Each tuple is the thread id, the `saved` flag
and the depth of a context listed by process 0.) -/
theorem C15_depends_on_other_process :
    ((without 1 ex_calls).map call.proc = [0, 0] ∧
     (run freebsd_amd64 ex_init ex_calls).map
       (fun s => (s.procs 0).threads.map (fun a => ((s.heap a).tid, (s.heap a).saved)))
       = some [(2, 0), (1, 0)] ∧
     (run freebsd_amd64 ex_init (without 1 ex_calls)).map
       (fun s => (s.procs 0).threads.map (fun a => ((s.heap a).tid, (s.heap a).saved)))
       = some [(2, 0), (1, 1)]) ∧
    (Reachable freebsd_amd64 ex_active ∧
     (without 1 ex_calls_later).map call.proc = [0] ∧
     (run freebsd_amd64 ex_active ex_calls_later).map
       (fun s => (s.procs 0).threads.map
         (fun a => ((s.heap a).tid, (s.heap a).saved, (s.heap a).callstack_depth)))
       = some [(2, 0, 0), (1, 0, 0)] ∧
     (run freebsd_amd64 ex_active (without 1 ex_calls_later)).map
       (fun s => (s.procs 0).threads.map
         (fun a => ((s.heap a).tid, (s.heap a).saved, (s.heap a).callstack_depth)))
       = some [(2, 0, 0), (1, 1, 2)]) :=
  ⟨⟨by decide, by decide, by decide⟩,
   ⟨ex_active_reachable _, by decide, by decide, by decide⟩⟩

end Ltrace
